import Mathlib

/-!
# syncOpenseaOrders.js: a shallow embedding

The script polls a marketplace for pages of assets, deduplicates the sell
orders it finds, builds a payload for each and posts it to a backend.  This
file embeds the functions of `src/syncOpenseaOrders.js` (`safeFetch`,
`fetchOpenseaAssets`, `postOrderToBackend`, `main`) as Lean functions and
proves properties of them.

Conventions of the embedding.

* A value read from the marketplace JSON in a string position (`token_id`,
  `order_hash`, `maker.address`, `current_price`, `offerer`, `image_url`,
  `metadata.image`) is a `JsVal`: `undefined` (the property is absent),
  `null`, or a string.  An object position (`maker`, `protocol_data`,
  `parameters`, `metadata`) holds an object or nothing, an array position
  (`assets`, `sell_orders`) an array or nothing.  Other shapes (a number
  where a string is expected, a string where an array is expected) are
  outside the model.
* A JavaScript number that is computed with (`price`) is an IEEE-754 binary64
  value, `JsNumber`, with round-to-nearest-even: `parseFloat(s) / 1e18` is
  computed as the runtime computes it.  `parseFloat` follows ECMAScript
  (StrDecimalLiteral, exact rounding of the decimal value).  The counters
  `offset`, `totalNFT` and `totalOrders` are natural numbers; JavaScript
  counts exactly up to 2^53.
* `fetch` is an oracle.  A `Net` gives the outcome of each successive request
  of one call of `safeFetch`; `main` is given one `Net` for each page read
  (by offset) and one for each forward (by its number in the run), which is
  every way the network may answer a sequential run.
* `fetch` and `sleep` are recorded in a trace of `Effect`s.  Console output is
  not modelled.
* The loop of `main` need not end, so it is run with fuel: `mainLoop` says
  whether the `break` was reached, `main` returns a final state only then.
-/

namespace SyncOpenseaOrders

/-! ## JavaScript values -/

/-- A JavaScript value as it occurs in the fields read by the script. -/
inductive JsVal where
  | undefined
  | null
  | str (s : String)
  deriving DecidableEq, Repr

namespace JsVal

/-- ToBoolean: `undefined`, `null` and the empty string are falsy. -/
def truthy : JsVal → Bool
  | str s => !(s == "")
  | _ => false

/-- ToString, as applied by a template literal. -/
def toStr : JsVal → String
  | undefined => "undefined"
  | null => "null"
  | str s => s

/-- The operator `a || b`. -/
def or (a b : JsVal) : JsVal := if a.truthy then a else b

end JsVal

/-! ## JavaScript numbers (IEEE-754 binary64) -/

/-- A binary64 value.  `fin neg m e` is `(-1)^neg * m * 2^e`, kept in the
canonical form `m < 2^53`, `-1074 ≤ e ≤ 971`, and `2^52 ≤ m` unless
`e = -1074` (subnormals and zero). -/
inductive JsNumber where
  | nan
  | inf (neg : Bool)
  | fin (neg : Bool) (m : Nat) (e : Int)
  deriving DecidableEq, Repr

/-- Floor of the binary logarithm, by halving (`fuel` bounds the number of halvings). -/
def ilog2Aux : Nat → Nat → Nat
  | 0, _ => 0
  | fuel + 1, n => if 2 ≤ n then ilog2Aux fuel (n / 2) + 1 else 0

/-- Floor of the binary logarithm of `n` (0 for `n ≤ 1`). -/
def ilog2 (n : Nat) : Nat := ilog2Aux n n

/-- The numerator and denominator of `p / (q * 2^e)`. -/
def scaleBy (p q : Nat) (e : Int) : Nat × Nat :=
  if 0 ≤ e then (p, q * 2 ^ e.toNat) else (p * 2 ^ (-e).toNat, q)

/-- Round the rational `p / q` (`q > 0`) to the nearest binary64 value, ties to
even, with sign `neg`. -/
def roundToDouble (neg : Bool) (p q : Nat) : JsNumber :=
  if p = 0 then .fin neg 0 (-1074)
  else
    let e1 : Int := (ilog2 p : Int) - (ilog2 q : Int) - 52
    let s1 := scaleBy p q e1
    let e2 : Int := if s1.1 < 2 ^ 52 * s1.2 then e1 - 1 else e1
    let e3 : Int := if e2 < -1074 then -1074 else e2
    let s := scaleBy p q e3
    let m0 := s.1 / s.2
    let r := s.1 % s.2
    let m1 := if s.2 < 2 * r ∨ (2 * r = s.2 ∧ m0 % 2 = 1) then m0 + 1 else m0
    let m := if m1 = 2 ^ 53 then 2 ^ 52 else m1
    let e : Int := if m1 = 2 ^ 53 then e3 + 1 else e3
    if 971 < e then .inf neg else .fin neg m e

namespace JsNumber

/-- The number `+0`. -/
def zero : JsNumber := .fin false 0 (-1074)

/-- The number `1`. -/
def one : JsNumber := .fin false (2 ^ 52) (-52)

/-- The operator `a / b` on numbers. -/
def div : JsNumber → JsNumber → JsNumber
  | nan, _ => nan
  | _, nan => nan
  | inf _, inf _ => nan
  | inf s, fin t _ _ => inf (xor s t)
  | fin s _ _, inf t => fin (xor s t) 0 (-1074)
  | fin s m e, fin t n f =>
    if n = 0 then (if m = 0 then nan else inf (xor s t))
    else
      let d : Int := e - f
      if 0 ≤ d then roundToDouble (xor s t) (m * 2 ^ d.toNat) n
      else roundToDouble (xor s t) m (n * 2 ^ (-d).toNat)

end JsNumber

/-- The literal `1e18`. -/
def e18 : JsNumber := roundToDouble false (10 ^ 18) 1

/-! ## parseFloat -/

/-- WhiteSpace and LineTerminator code points, which `parseFloat` skips at the start. -/
def isJsWhiteSpace (c : Char) : Bool :=
  let n := c.toNat
  n == 0x09 || n == 0x0A || n == 0x0B || n == 0x0C || n == 0x0D || n == 0x20 ||
  n == 0xA0 || n == 0x1680 || (0x2000 ≤ n && n ≤ 0x200A) || n == 0x2028 ||
  n == 0x2029 || n == 0x202F || n == 0x205F || n == 0x3000 || n == 0xFEFF

/-- A decimal digit. -/
def isDecDigit (c : Char) : Bool := 48 ≤ c.toNat && c.toNat ≤ 57

/-- The value of a run of decimal digits. -/
def digitsValue (ds : List Char) : Nat :=
  ds.foldl (fun acc c => acc * 10 + (c.toNat - 48)) 0

/-- The exponent part `e[+-]digits` at the start of `cs`, or 0 when there is none. -/
def parseExponent (cs : List Char) : Int :=
  match cs with
  | c :: rest =>
    if c = 'e' ∨ c = 'E' then
      match rest with
      | '+' :: ds =>
        let d := ds.takeWhile isDecDigit
        if d = [] then 0 else (digitsValue d : Int)
      | '-' :: ds =>
        let d := ds.takeWhile isDecDigit
        if d = [] then 0 else -(digitsValue d : Int)
      | ds =>
        let d := ds.takeWhile isDecDigit
        if d = [] then 0 else (digitsValue d : Int)
    else 0
  | [] => 0

/-- The number denoted by the longest prefix of `cs` that is an unsigned
StrDecimalLiteral, with sign `neg`; `NaN` when no prefix is one. -/
def parseUnsigned (neg : Bool) (cs : List Char) : JsNumber :=
  if "Infinity".toList.isPrefixOf cs then .inf neg
  else
    let ip := cs.takeWhile isDecDigit
    let r1 := cs.dropWhile isDecDigit
    let hasDot : Bool := match r1 with
      | '.' :: _ => true
      | _ => false
    let fp := if hasDot then (r1.drop 1).takeWhile isDecDigit else []
    let r2 := if hasDot then (r1.drop 1).dropWhile isDecDigit else r1
    if ip = [] ∧ fp = [] then .nan
    else
      let x : Int := parseExponent r2 - (fp.length : Int)
      let d := digitsValue (ip ++ fp)
      if 0 ≤ x then roundToDouble neg (d * 10 ^ x.toNat) 1
      else roundToDouble neg d (10 ^ (-x).toNat)

/-- The function `parseFloat` on a string. -/
def parseFloatStr (s : String) : JsNumber :=
  match s.toList.dropWhile isJsWhiteSpace with
  | '+' :: cs => parseUnsigned false cs
  | '-' :: cs => parseUnsigned true cs
  | cs => parseUnsigned false cs

/-- The function `parseFloat`: the argument is converted to a string first. -/
def parseFloat (v : JsVal) : JsNumber := parseFloatStr v.toStr

/-! ## Data model -/

/-- The object `order.maker`. -/
structure Maker where
  address : JsVal
  deriving DecidableEq, Repr

/-- The object `order.protocol_data.parameters`. -/
structure Parameters where
  offerer : JsVal
  deriving DecidableEq, Repr

/-- The object `order.protocol_data`. -/
structure ProtocolData where
  parameters : Option Parameters
  deriving DecidableEq, Repr

/-- A sell order of an asset. -/
structure Order where
  order_hash : JsVal
  maker : Option Maker
  current_price : JsVal
  protocol_data : Option ProtocolData
  deriving DecidableEq, Repr

/-- The object `nft.metadata`. -/
structure Metadata where
  image : JsVal
  deriving DecidableEq, Repr

/-- An asset of a marketplace page. -/
structure Asset where
  token_id : JsVal
  sell_orders : Option (List Order)
  image_url : JsVal
  metadata : Option Metadata
  deriving DecidableEq, Repr

/-- The payload posted to the backend. -/
structure Payload where
  tokenId : JsVal
  price : JsNumber
  sellerAddress : JsVal
  seaportOrder : ProtocolData
  orderHash : JsVal
  image : JsVal
  marketplaceContract : String
  deriving DecidableEq, Repr

/-- What `res.json()` yields when it succeeds: the fields the script reads.
`success` is the truthiness of `data.success`. -/
structure JsonData where
  assets : Option (List Asset)
  success : Bool
  deriving DecidableEq, Repr

/-- An HTTP response.  `json = none` when `res.json()` throws, or yields a
value whose properties cannot be read. -/
structure Response where
  status : Nat
  json : Option JsonData
  deriving DecidableEq, Repr

/-- The property `res.ok`: the status is in the range 200 to 299. -/
def Response.ok (res : Response) : Bool := 200 ≤ res.status && res.status ≤ 299

/-- The arguments of a `fetch` call. -/
structure Request where
  url : String
  method : String
  headers : List (String × String)
  body : Option Payload
  deriving DecidableEq, Repr

/-- What one `fetch` call does: it resolves with a response or throws. -/
inductive Outcome where
  | response (res : Response)
  | networkError
  deriving DecidableEq, Repr

/-- The network as one call of `safeFetch` sees it: `net j` is the outcome of
the request number `j` (from 0) issued from now on. -/
abbrev Net := Nat → Outcome

/-- The network after one request has been answered. -/
def Net.tail (net : Net) : Net := fun j => net (j + 1)

/-- The network that answers with the outcomes of `l` in turn and with `d` afterwards. -/
def Net.ofList (l : List Outcome) (d : Outcome) : Net := fun j => l.getD j d

/-- An observable effect: a request issued or a wait. -/
inductive Effect where
  | fetch (req : Request)
  | sleep (ms : Nat)
  deriving DecidableEq, Repr

/-! ## Configuration -/

/-- The base URL of the backend. -/
def BACKEND_URL : String := "https://sənin-app.onrender.com"

/-- The contract whose assets are listed. -/
def NFT_CONTRACT_ADDRESS : String := "0x54a88333F6e7540eA982261301309048aC431eD5"

/-- The `marketplaceContract` of every payload. -/
def PROXY_CONTRACT_ADDRESS : String := "0x9656448941C76B79A39BC4ad68f6fb9F01181EC7"

/-- The number of assets asked for in one page, and the step of the offset. -/
abbrev PAGE_SIZE : Nat := 50

/-- The API key; empty, so no `X-API-KEY` header is sent. -/
def OPENSEA_API_KEY : String := ""

/-- The largest attempt number after which `safeFetch` still retries. -/
abbrev RETRY_LIMIT : Nat := 3

/-! ## safeFetch -/

/-- The result of `safeFetch`: the response or `null`, and the effects performed. -/
structure FetchResult where
  res : Option Response
  trace : List Effect
  deriving DecidableEq, Repr

/-- The function `safeFetch(url, options, attempt)`. -/
def safeFetch (net : Net) (req : Request) (attempt : Nat) : FetchResult :=
  match net 0 with
  | .response res =>
    if res.status = 429 then
      if h : attempt ≤ RETRY_LIMIT then
        let r := safeFetch net.tail req (attempt + 1)
        { res := r.res, trace := .fetch req :: .sleep (attempt * 1000) :: r.trace }
      else { res := none, trace := [.fetch req] }
    else if !res.ok then { res := none, trace := [.fetch req] }
    else { res := some res, trace := [.fetch req] }
  | .networkError =>
    if h : attempt ≤ RETRY_LIMIT then
      let r := safeFetch net.tail req (attempt + 1)
      { res := r.res, trace := .fetch req :: .sleep (attempt * 1000) :: r.trace }
    else { res := none, trace := [.fetch req] }
termination_by RETRY_LIMIT + 1 - attempt
decreasing_by all_goals (simp only [RETRY_LIMIT] at *; omega)

/-! ## fetchOpenseaAssets -/

/-- The result of `fetchOpenseaAssets`: the assets of the page, and the effects performed. -/
structure PageResult where
  assets : List Asset
  trace : List Effect
  deriving DecidableEq, Repr

/-- The request `fetchOpenseaAssets` builds for an offset. -/
def assetsRequest (offset : Nat) : Request :=
  { url := "https://api.opensea.io/api/v1/assets?asset_contract_address=" ++
      NFT_CONTRACT_ADDRESS ++ "&order_direction=desc&offset=" ++ toString offset ++
      "&limit=" ++ toString PAGE_SIZE
    method := "GET"
    headers := [("Accept", "application/json")] ++
      (if OPENSEA_API_KEY = "" then [] else [("X-API-KEY", OPENSEA_API_KEY)])
    body := none }

/-- The function `fetchOpenseaAssets(offset)`. -/
def fetchOpenseaAssets (net : Net) (offset : Nat) : PageResult :=
  let r := safeFetch net (assetsRequest offset) 1
  match r.res with
  | none => { assets := [], trace := r.trace }
  | some res =>
    match res.json with
    | none => { assets := [], trace := r.trace }
    | some data =>
      match data.assets with
      | none => { assets := [], trace := r.trace }
      | some assets => { assets := assets, trace := r.trace }

/-! ## postOrderToBackend -/

/-- What `postOrderToBackend` learns about a forward. -/
inductive Ack where
  | dropped
  | jsonError
  | rejected
  | saved
  deriving DecidableEq, Repr

/-- The result of `postOrderToBackend`: what it logs, and the effects performed. -/
structure PostResult where
  ack : Ack
  trace : List Effect
  deriving DecidableEq, Repr

/-- The request `postOrderToBackend` builds for a payload. -/
def orderRequest (order : Payload) : Request :=
  { url := BACKEND_URL ++ "/order"
    method := "POST"
    headers := [("Content-Type", "application/json")]
    body := some order }

/-- The function `postOrderToBackend(order)`. -/
def postOrderToBackend (net : Net) (order : Payload) : PostResult :=
  let r := safeFetch net (orderRequest order) 1
  match r.res with
  | none => { ack := .dropped, trace := r.trace }
  | some res =>
    match res.json with
    | none => { ack := .jsonError, trace := r.trace }
    | some data =>
      if !data.success then { ack := .rejected, trace := r.trace }
      else { ack := .saved, trace := r.trace }

/-! ## main -/

/-- The expression `order.maker?.address`. -/
def makerAddress (order : Order) : JsVal :=
  match order.maker with
  | none => .undefined
  | some m => m.address

/-- The expression `nft.metadata?.image`. -/
def metadataImage (nft : Asset) : JsVal :=
  match nft.metadata with
  | none => .undefined
  | some m => m.image

/-- The Dedup Key of an order: the constant `hash` of `main`. -/
def dedupKey (nft : Asset) (order : Order) : JsVal :=
  order.order_hash.or (.str (nft.token_id.toStr ++ "-" ++ (makerAddress order).toStr))

/-- The `price` of the payload. -/
def payloadPrice (order : Order) : JsNumber :=
  if order.current_price.truthy then (parseFloat order.current_price).div e18
  else JsNumber.zero

/-- The `sellerAddress` of the payload. -/
def payloadSeller (order : Order) (params : Parameters) : JsVal :=
  ((makerAddress order).or params.offerer).or (.str "unknown")

/-- The object `payload` of `main`, for an order whose `protocol_data` is `pd`
with parameters `params`. -/
def buildPayload (nft : Asset) (order : Order) (pd : ProtocolData) (params : Parameters)
    (hash : JsVal) : Payload :=
  { tokenId := nft.token_id
    price := payloadPrice order
    sellerAddress := payloadSeller order params
    seaportOrder := pd
    orderHash := hash
    image := (nft.image_url.or (metadataImage nft)).or .null
    marketplaceContract := PROXY_CONTRACT_ADDRESS }

/-- The expression `order.protocol_data?.parameters`, with the `protocol_data`
it was read from. -/
def protocolParameters (order : Order) : Option (ProtocolData × Parameters) :=
  match order.protocol_data with
  | none => none
  | some pd =>
    match pd.parameters with
    | none => none
    | some params => some (pd, params)

/-- What `main` does with one sell order (recorded for the proofs; not a value
of the script): it leaves it for lack of protocol parameters, skips it as a
duplicate, or forwards it, that is, hands its payload to `postOrderToBackend`
(which, through the retries of `safeFetch`, may send it up to four times). -/
inductive Verdict where
  | ineligible
  | duplicate (hash : JsVal)
  | forwarded (payload : Payload)
  deriving DecidableEq, Repr

/-- The variables of `main` and the set `SENT_ORDER_HASHES`, with three
records kept for the proofs: the effects performed, the offsets passed to
`fetchOpenseaAssets`, and the verdict on each sell order visited. -/
structure SyncState where
  offset : Nat
  totalNFT : Nat
  totalOrders : Nat
  SENT_ORDER_HASHES : List JsVal
  trace : List Effect
  pageOffsets : List Nat
  verdicts : List Verdict
  deriving DecidableEq, Repr

/-- The state in which `main` starts. -/
def SyncState.init : SyncState :=
  { offset := 0, totalNFT := 0, totalOrders := 0, SENT_ORDER_HASHES := [], trace := [],
    pageOffsets := [], verdicts := [] }

/-- The body of the loop over `nft.sell_orders`.  `backend k` is the network
as the forward number `k` (from 0) sees it. -/
def processOrder (backend : Nat → Net) (nft : Asset) (st : SyncState) (order : Order) :
    SyncState :=
  match protocolParameters order with
  | none => { st with verdicts := st.verdicts ++ [.ineligible] }
  | some (pd, params) =>
    let hash := dedupKey nft order
    if hash ∈ st.SENT_ORDER_HASHES then { st with verdicts := st.verdicts ++ [.duplicate hash] }
    else
      let payload := buildPayload nft order pd params hash
      let post := postOrderToBackend (backend st.totalOrders) payload
      { st with
        SENT_ORDER_HASHES := st.SENT_ORDER_HASHES ++ [hash]
        totalOrders := st.totalOrders + 1
        trace := st.trace ++ post.trace
        verdicts := st.verdicts ++ [.forwarded payload] }

/-- The body of the loop over `assets`. -/
def processAsset (backend : Nat → Net) (st : SyncState) (nft : Asset) : SyncState :=
  let st1 := { st with totalNFT := st.totalNFT + 1 }
  match nft.sell_orders with
  | none => st1
  | some orders =>
    if orders.length = 0 then st1
    else orders.foldl (processOrder backend nft) st1

/-- A run of the loop of `main`: whether it reached its `break`, and the state
it is in. -/
structure Run where
  finished : Bool
  state : SyncState
  deriving DecidableEq, Repr

/-- The `while (true)` loop of `main`, run for at most `fuel` iterations.
`market o` is the network as the page read at offset `o` sees it. -/
def mainLoop (market backend : Nat → Net) : Nat → SyncState → Run
  | 0, st => { finished := false, state := st }
  | fuel + 1, st =>
    let page := fetchOpenseaAssets (market st.offset) st.offset
    let st1 := { st with
      trace := st.trace ++ page.trace
      pageOffsets := st.pageOffsets ++ [st.offset] }
    if page.assets.length = 0 then { finished := true, state := st1 }
    else
      let st2 := page.assets.foldl (processAsset backend) st1
      mainLoop market backend fuel { st2 with offset := st2.offset + PAGE_SIZE }

/-- The function `main`, run for at most `fuel` iterations of its loop: the
final state, or `none` when the loop has not reached its `break` by then. -/
def main (market backend : Nat → Net) (fuel : Nat) : Option SyncState :=
  let run := mainLoop market backend fuel SyncState.init
  if run.finished then some run.state else none

/-! ## Observations on traces and outcomes -/

/-- The waits of a trace, in milliseconds, in order. -/
def waits : List Effect → List Nat
  | [] => []
  | .sleep ms :: t => ms :: waits t
  | .fetch _ :: t => waits t

/-- The number of requests of a trace. -/
def requestCount : List Effect → Nat
  | [] => 0
  | .fetch _ :: t => requestCount t + 1
  | .sleep _ :: t => requestCount t

/-- A rate-limit response (status 429). -/
def Outcome.isRateLimit : Outcome → Bool
  | .response res => res.status == 429
  | .networkError => false

/-- An outcome `safeFetch` retries: a rate-limit response or a network error. -/
def Outcome.isTransient : Outcome → Bool
  | .response res => res.status == 429
  | .networkError => true

/-! ## Inputs used in the examples -/

/-- A rate-limit response. -/
def rateLimited : Response := { status := 429, json := none }

/-- A server error. -/
def serverError : Response := { status := 500, json := none }

/-- A successful response whose body is `{ "success": true }`. -/
def accepted : Response := { status := 200, json := some { assets := none, success := true } }

/-- A successful response whose body is `{ "success": false }`. -/
def rejected : Response := { status := 200, json := some { assets := none, success := false } }

/-- Two rate-limit responses, then a success. -/
def twoRateLimits : Net :=
  Net.ofList [.response rateLimited, .response rateLimited] (.response accepted)

/-- Three rate-limit responses, then a success. -/
def threeRateLimits : Net :=
  Net.ofList [.response rateLimited, .response rateLimited, .response rateLimited]
    (.response accepted)

/-- Rate-limit responses for ever. -/
def alwaysRateLimited : Net := fun _ => .response rateLimited

/-- A server error at once. -/
def failing : Net := fun _ => .response serverError

/-- Network errors and rate-limit responses in turn, for ever. -/
def mixedTransients : Net := fun j =>
  if j % 2 = 0 then .networkError else .response rateLimited

/-- The parameters of the sample orders. -/
def sampleParameters : Parameters := { offerer := .str "0xofferer" }

/-- The protocol data of the sample orders. -/
def sampleProtocol : ProtocolData := { parameters := some sampleParameters }

/-- An asset without sell orders. -/
def sampleAsset : Asset :=
  { token_id := .str "7", sell_orders := none, image_url := .undefined, metadata := none }

/-- An eligible order with the given `current_price`. -/
def pricedOrder (price : JsVal) : Order :=
  { order_hash := .str "0xhash", maker := some { address := .str "0xmaker" },
    current_price := price, protocol_data := some sampleProtocol }

/-- An eligible order with the given maker and offerer. -/
def sellerOrder (maker : Option Maker) (offerer : JsVal) : Order :=
  { order_hash := .str "0xhash", maker := maker, current_price := .str "1",
    protocol_data := some { parameters := some { offerer := offerer } } }

/-! ## The run of main, in terms of the pages -/

/-- The page `fetchOpenseaAssets(offset)` returns. -/
def pageAt (market : Nat → Net) (offset : Nat) : List Asset :=
  (fetchOpenseaAssets (market offset) offset).assets

/-- The pages read so far, in order. -/
def pagesRead (market : Nat → Net) (st : SyncState) : List (List Asset) :=
  st.pageOffsets.map (pageAt market)

/-- The sell orders of an asset that the inner loop of `main` visits. -/
def sellOrders (nft : Asset) : List Order :=
  match nft.sell_orders with
  | none => []
  | some orders => orders

/-- The sell orders of an asset, each with the asset. -/
def assetOrders (nft : Asset) : List (Asset × Order) :=
  (sellOrders nft).map (fun order => (nft, order))

/-- The sell orders of the pages, each with its asset, in the order in which
`main` visits them. -/
def visitedOrders (pages : List (List Asset)) : List (Asset × Order) :=
  pages.flatten.flatMap assetOrders

/-- An order is eligible when it has protocol parameters. -/
def eligible (order : Order) : Bool := (protocolParameters order).isSome

/-- The Dedup Key of a visited order. -/
def keyOf (p : Asset × Order) : JsVal := dedupKey p.1 p.2

/-- The Dedup Keys of the eligible orders of a list. -/
def seenKeys (pre : List (Asset × Order)) : List JsVal :=
  (pre.filter (fun p => eligible p.2)).map keyOf

/-- The verdict expected on the order `p` visited after the orders `pre`:
ineligible without protocol parameters, duplicate when an eligible order of
`pre` has its Dedup Key, forwarded otherwise. -/
def verdictOf (pre : List (Asset × Order)) (p : Asset × Order) : Verdict :=
  match protocolParameters p.2 with
  | none => .ineligible
  | some (pd, params) =>
    if keyOf p ∈ seenKeys pre then .duplicate (keyOf p)
    else .forwarded (buildPayload p.1 p.2 pd params (keyOf p))

/-- Whether the order at index `i` of `occ` is eligible and no eligible order
before it has its Dedup Key. -/
def isFresh (occ : List (Asset × Order)) (i : Nat) : Bool :=
  match occ[i]? with
  | none => false
  | some p => eligible p.2 && !decide (keyOf p ∈ seenKeys (occ.take i))

/-- The number of orders of `occ` that are eligible and whose Dedup Key no
earlier eligible order has. -/
def freshCount (occ : List (Asset × Order)) : Nat :=
  ((List.range occ.length).filter (isFresh occ)).length

/-- The payloads handed to `postOrderToBackend`, in order. -/
def forwardedPayloads : List Verdict → List Payload
  | [] => []
  | .forwarded payload :: vs => payload :: forwardedPayloads vs
  | _ :: vs => forwardedPayloads vs

/-- The state after the orders `pre` have been visited, from the empty set. -/
structure OrdersInv (pre : List (Asset × Order)) (st : SyncState) : Prop where
  sent_iff : ∀ k, k ∈ st.SENT_ORDER_HASHES ↔ k ∈ seenKeys pre
  nodup : st.SENT_ORDER_HASHES.Nodup
  total : st.totalOrders = st.SENT_ORDER_HASHES.length
  fresh : st.totalOrders = freshCount pre
  length : st.verdicts.length = pre.length
  verdicts : ∀ i p, pre[i]? = some p → st.verdicts[i]? = some (verdictOf (pre.take i) p)
  forwarded : (forwardedPayloads st.verdicts).map (fun payload => payload.orderHash) = st.SENT_ORDER_HASHES

/-- The state of `main` in terms of the pages read. -/
structure LoopInv (market : Nat → Net) (st : SyncState) : Prop where
  orders : OrdersInv (visitedOrders (pagesRead market st)) st
  nft : st.totalNFT = ((pagesRead market st).map List.length).sum
  offsets : st.pageOffsets = (List.range st.pageOffsets.length).map (fun i => i * PAGE_SIZE)

/-- The state at the next head of the loop of `main`, after a non-empty page. -/
def pageStep (market backend : Nat → Net) (st : SyncState) : SyncState :=
  let page := fetchOpenseaAssets (market st.offset) st.offset
  let st2 := page.assets.foldl (processAsset backend)
    { st with
      trace := st.trace ++ page.trace
      pageOffsets := st.pageOffsets ++ [st.offset] }
  { st2 with offset := st2.offset + PAGE_SIZE }

/-- A market that answers the read at offset `o` at once, with the page
number `o / PAGE_SIZE` of `pages`, and with an empty page after them. -/
def marketOfPages (pages : List (List Asset)) : Nat → Net := fun o _ =>
  .response { status := 200,
              json := some { assets := some (pages.getD (o / PAGE_SIZE) []), success := false } }

/-- A backend that answers every request with the response `res`. -/
def backendOf (res : Response) : Nat → Net := fun _ _ => .response res

/-- The state of `main` after at most `fuel` iterations of its loop. -/
def stateAfter (market backend : Nat → Net) (fuel : Nat) : SyncState :=
  (mainLoop market backend fuel SyncState.init).state

/-- The pages before the page number `k`. -/
def pagesBefore (market : Nat → Net) (k : Nat) : List (List Asset) :=
  (List.range k).map (fun i => pageAt market (i * PAGE_SIZE))

/-- The sell orders visited by `main` in at most `fuel` iterations of its
loop, each with its asset, in the order of the visits. -/
def ordersVisited (market backend : Nat → Net) (fuel : Nat) : List (Asset × Order) :=
  visitedOrders (pagesRead market (stateAfter market backend fuel))

/-- The verdicts expected on the orders `occ`, visited from the empty set. -/
def expectedVerdicts (occ : List (Asset × Order)) : List Verdict :=
  (List.range occ.length).map (fun i =>
    match occ[i]? with
    | some p => verdictOf (occ.take i) p
    | none => .ineligible)

/-- An eligible order with the given hash. -/
def listedOrder (hash : String) : Order :=
  { order_hash := .str hash, maker := some { address := .str "0xmaker" },
    current_price := .str "1000000000000000000", protocol_data := some sampleProtocol }

/-- An order with the given hash and no protocol parameters. -/
def bareOrder (hash : String) : Order :=
  { order_hash := .str hash, maker := some { address := .str "0xmaker" },
    current_price := .str "1000000000000000000", protocol_data := some { parameters := none } }

/-- Asset A of the scenario: one valid sell order. -/
def assetA : Asset :=
  { token_id := .str "1", sell_orders := some [listedOrder "0xa"], image_url := .undefined,
    metadata := none }

/-- Asset B of the scenario: no sell orders. -/
def assetB : Asset :=
  { token_id := .str "2", sell_orders := none, image_url := .undefined, metadata := none }

/-- Asset C of the scenario: two sell orders, one without protocol parameters. -/
def assetC : Asset :=
  { token_id := .str "3", sell_orders := some [listedOrder "0xc1", bareOrder "0xc2"],
    image_url := .undefined, metadata := none }

/-- One page with the assets A, B and C. -/
def scenarioMarket : Nat → Net := marketOfPages [[assetA, assetB, assetC]]

/-- Two pages of one asset each. -/
def twoPageMarket : Nat → Net := marketOfPages [[assetA], [assetB]]

/-- The asset A on two successive pages. -/
def repeatingMarket : Nat → Net := marketOfPages [[assetA], [assetA]]

/-- An asset whose first sell order lacks protocol parameters and whose second
sell order has the same `order_hash`. -/
def shadowedAsset : Asset :=
  { token_id := .str "4", sell_orders := some [bareOrder "0xd", listedOrder "0xd"],
    image_url := .undefined, metadata := none }

/-- One page with the asset `shadowedAsset`. -/
def shadowedMarket : Nat → Net := marketOfPages [[shadowedAsset]]

/-! ## The requests to the backend -/

/-- The payload an effect posts: the body of a `fetch` with the method POST. -/
def postedPayload : Effect → Option Payload
  | .fetch req => if req.method = "POST" then req.body else none
  | .sleep _ => none

/-- The payloads of the POST requests of a trace, one for each request, in order. -/
def postBodies (trace : List Effect) : List Payload := trace.filterMap postedPayload

/-- The POST requests expected when the payloads `ps` are handed to
`postOrderToBackend` in turn, the first as the forward number `k`: for each
payload, as many requests as its one call of `postOrderToBackend` issues. -/
def postsOf (backend : Nat → Net) : Nat → List Payload → List Payload
  | _, [] => []
  | k, p :: ps =>
    List.replicate (requestCount (postOrderToBackend (backend k) p).trace) p ++
      postsOf backend (k + 1) ps

/-- The POST requests of the trace are those of the forwards recorded, and
`totalOrders` counts the forwards. -/
structure PostsInv (backend : Nat → Net) (st : SyncState) : Prop where
  posts : postBodies st.trace = postsOf backend 0 (forwardedPayloads st.verdicts)
  count : st.totalOrders = (forwardedPayloads st.verdicts).length

/-- An eligible order without `order_hash`, with the given maker and price. -/
def unhashedOrder (maker price : String) : Order :=
  { order_hash := .undefined, maker := some { address := .str maker },
    current_price := .str price, protocol_data := some sampleProtocol }

/-- An asset with two eligible orders without `order_hash`, of one maker. -/
def unhashedAsset : Asset :=
  { token_id := .str "5",
    sell_orders := some [unhashedOrder "0xm" "1000000000000000000",
      unhashedOrder "0xm" "2000000000000000000"],
    image_url := .undefined, metadata := none }

/-- One page with the asset `unhashedAsset`. -/
def unhashedMarket : Nat → Net := marketOfPages [[unhashedAsset]]

/-! ## The requests to the marketplace -/

/-- The request an effect sends with the method GET. -/
def sentGet : Effect → Option Request
  | .fetch req => if req.method = "GET" then some req else none
  | .sleep _ => none

/-- The GET requests of a trace, in order. -/
def getRequests (trace : List Effect) : List Request := trace.filterMap sentGet

/-- The GET requests expected when `fetchOpenseaAssets` is called at the
offsets `offsets` in turn: for each offset, as many requests for that offset
as its one call issues. -/
def readsOf (market : Nat → Net) (offsets : List Nat) : List Request :=
  offsets.flatMap (fun o =>
    List.replicate (requestCount (fetchOpenseaAssets (market o) o).trace) (assetsRequest o))

/-! # Theorems -/

/-! ## safeFetch -/

theorem Response.status_ne_429_of_ok (res : Response) (hok : res.ok = true) :
    res.status ≠ 429 := by
  simp only [Response.ok, Bool.and_eq_true, decide_eq_true_eq] at hok
  omega

theorem Outcome.isTransient_of_isRateLimit (o : Outcome) (h : o.isRateLimit = true) :
    o.isTransient = true := by
  cases o <;> simp_all [Outcome.isRateLimit, Outcome.isTransient]

theorem safeFetch_retry (net : Net) (req : Request) (attempt : Nat)
    (ht : (net 0).isTransient = true) (ha : attempt ≤ RETRY_LIMIT) :
    safeFetch net req attempt =
      { res := (safeFetch net.tail req (attempt + 1)).res
        trace := .fetch req :: .sleep (attempt * 1000) ::
          (safeFetch net.tail req (attempt + 1)).trace } := by
  rw [safeFetch]
  cases h0 : net 0 with
  | response res =>
    have : res.status = 429 := by simpa [Outcome.isTransient, h0] using ht
    simp [this, ha]
  | networkError => simp [ha]

theorem safeFetch_give_up (net : Net) (req : Request) (attempt : Nat)
    (ht : (net 0).isTransient = true) (ha : RETRY_LIMIT < attempt) :
    safeFetch net req attempt = { res := none, trace := [.fetch req] } := by
  have ha2 : ¬ attempt ≤ RETRY_LIMIT := by omega
  rw [safeFetch]
  cases h0 : net 0 with
  | response res =>
    have : res.status = 429 := by simpa [Outcome.isTransient, h0] using ht
    simp [this, ha2]
  | networkError => simp [ha2]

theorem safeFetch_failure (net : Net) (req : Request) (attempt : Nat) (res : Response)
    (h0 : net 0 = .response res) (hok : res.ok = false) (hs : res.status ≠ 429) :
    safeFetch net req attempt = { res := none, trace := [.fetch req] } := by
  rw [safeFetch]
  simp [h0, hs, hok]

theorem safeFetch_success (net : Net) (req : Request) (attempt : Nat) (res : Response)
    (h0 : net 0 = .response res) (hok : res.ok = true) :
    safeFetch net req attempt = { res := some res, trace := [.fetch req] } := by
  have hs := res.status_ne_429_of_ok hok
  rw [safeFetch]
  simp [h0, hok, hs]

/-- After `k` transient outcomes and then a success, with `attempt + k ≤ RETRY_LIMIT + 1`,
`safeFetch` returns the success after the waits `attempt`, ..., `attempt + k - 1` seconds. -/
theorem safeFetch_after_transients (req : Request) (res : Response) :
    ∀ (k : Nat) (net : Net) (attempt : Nat), attempt + k ≤ RETRY_LIMIT + 1 →
      (∀ j, j < k → (net j).isTransient = true) →
      net k = .response res → res.ok = true →
      (safeFetch net req attempt).res = some res ∧
      waits (safeFetch net req attempt).trace =
        (List.range k).map (fun i => (attempt + i) * 1000) ∧
      requestCount (safeFetch net req attempt).trace = k + 1 := by
  intro k
  induction k with
  | zero =>
    intro net attempt _ _ hk hok
    rw [safeFetch_success net req attempt res hk hok]
    simp [waits, requestCount]
  | succ k ih =>
    intro net attempt ha ht hk hok
    have h1 := ih net.tail (attempt + 1) (by omega)
      (fun j hj => ht (j + 1) (by omega)) hk hok
    rw [safeFetch_retry net req attempt (ht 0 (by omega)) (by omega)]
    refine ⟨h1.1, ?_, ?_⟩
    · simp only [waits, h1.2.1, List.range_succ_eq_map, List.map_cons, List.map_map]
      simp [Function.comp_def, Nat.add_assoc, Nat.add_comm 1]
    · simp [requestCount, h1.2.2]

theorem safeFetch_final (net : Net) (req : Request) (attempt : Nat)
    (ht : (net 0).isTransient = false) :
    (safeFetch net req attempt).trace = [.fetch req] := by
  rw [safeFetch]
  cases h0 : net 0 with
  | response res =>
    have : res.status ≠ 429 := by simpa [Outcome.isTransient, h0] using ht
    simp only [this, if_false]
    split <;> rfl
  | networkError => simp [Outcome.isTransient, h0] at ht

/-- The retry of `safeFetch` is bounded by the attempt counter: it issues at
most `RETRY_LIMIT + 1 - attempt + 1` requests, waits `attempt`, `attempt + 1`,
... seconds between them, and returns null when every request it issued ended
in a transient outcome. -/
theorem safeFetch_bounded (req : Request) :
    ∀ (d : Nat) (net : Net) (attempt : Nat), RETRY_LIMIT + 1 - attempt = d →
      requestCount (safeFetch net req attempt).trace ≤ d + 1 ∧
      1 ≤ requestCount (safeFetch net req attempt).trace ∧
      waits (safeFetch net req attempt).trace =
        (List.range (requestCount (safeFetch net req attempt).trace - 1)).map
          (fun i => (attempt + i) * 1000) ∧
      ((∀ j, j < requestCount (safeFetch net req attempt).trace →
          (net j).isTransient = true) →
        (safeFetch net req attempt).res = none) := by
  intro d
  induction d with
  | zero =>
    intro net attempt ha
    cases ht : (net 0).isTransient with
    | true =>
      rw [safeFetch_give_up net req attempt ht (by omega)]
      simp [requestCount, waits]
    | false =>
      rw [safeFetch_final net req attempt ht]
      simp only [requestCount, waits]
      refine ⟨by omega, by omega, by simp, ?_⟩
      intro h
      have := h 0 (by omega)
      simp [ht] at this
  | succ d ih =>
    intro net attempt ha
    cases ht : (net 0).isTransient with
    | true =>
      have h1 := ih net.tail (attempt + 1) (by omega)
      rw [safeFetch_retry net req attempt ht (by omega)]
      obtain ⟨hle, hge, hw, hnone⟩ := h1
      simp only [requestCount, waits]
      refine ⟨by omega, by omega, ?_, ?_⟩
      · rw [hw]
        obtain ⟨c, hc⟩ : ∃ c, requestCount (safeFetch net.tail req (attempt + 1)).trace = c + 1 :=
          ⟨_, (Nat.sub_add_cancel hge).symm⟩
        simp only [hc, Nat.add_sub_cancel, List.range_succ_eq_map, List.map_cons, List.map_map]
        simp [Function.comp_def, Nat.add_assoc, Nat.add_comm 1]
      · intro h
        exact hnone (fun j hj => h (j + 1) (by omega))
    | false =>
      rw [safeFetch_final net req attempt ht]
      simp only [requestCount, waits]
      refine ⟨by omega, by omega, by simp, ?_⟩
      intro h
      have := h 0 (by omega)
      simp [ht] at this

/-- C3: for every `k ≤ RETRY_LIMIT`, when the first `k` responses are rate-limit
(429) responses and the next response is a success, `safeFetch` called with
attempt 1 returns that response, having issued `k + 1` requests and waited
exactly `k` times, 1000 ms, 2000 ms, ..., `k * 1000` ms in this order; for
`k = 2` the effects are request, wait 1 s, request, wait 2 s, request. -/
theorem safeFetch_success_after_rate_limits (k : Nat) (net : Net) (req : Request)
    (res : Response) (hk : k ≤ RETRY_LIMIT)
    (h429 : ∀ j, j < k → (net j).isRateLimit = true)
    (hres : net k = .response res) (hok : res.ok = true) :
    (safeFetch net req 1).res = some res ∧
    waits (safeFetch net req 1).trace = (List.range k).map (fun i => (i + 1) * 1000) ∧
    requestCount (safeFetch net req 1).trace = k + 1 ∧
    (k = 2 → (safeFetch net req 1).trace =
      [.fetch req, .sleep 1000, .fetch req, .sleep 2000, .fetch req]) := by
  have ht : ∀ j, j < k → (net j).isTransient = true :=
    fun j hj => (net j).isTransient_of_isRateLimit (h429 j hj)
  obtain ⟨h1, h2, h3⟩ := safeFetch_after_transients req res k net 1 (by omega) ht hres hok
  refine ⟨h1, ?_, h3, ?_⟩
  · rw [h2]
    apply List.map_congr_left
    intro i _
    omega
  · intro hk2
    subst hk2
    rw [safeFetch_retry net req 1 (ht 0 (by omega)) (by omega),
      safeFetch_retry net.tail req 2 (ht 1 (by omega)) (by omega),
      safeFetch_success net.tail.tail req 3 res hres hok]

/-- Two rate-limit responses and then a success: `safeFetch` returns the
success after the waits of 1 s and 2 s. -/
theorem safeFetch_success_after_rate_limits_witness :
    (safeFetch twoRateLimits (assetsRequest 0) 1).res = some accepted ∧
    waits (safeFetch twoRateLimits (assetsRequest 0) 1).trace = [1000, 2000] ∧
    requestCount (safeFetch twoRateLimits (assetsRequest 0) 1).trace = 3 := by
  have h := safeFetch_success_after_rate_limits 2 twoRateLimits (assetsRequest 0) accepted
    (by decide) (by intro j hj; interval_cases j <;> rfl) rfl (by decide)
  exact ⟨h.1, h.2.1, h.2.2.1⟩

/-- C2, as stated, fails: after `RETRY_LIMIT` = 3 rate-limit responses
`safeFetch` issues a fourth request, and when that one succeeds its response is
returned, not null. -/
theorem safeFetch_three_rate_limits_not_null :
    (∀ j, j < RETRY_LIMIT → (threeRateLimits j).isRateLimit = true) ∧
    (safeFetch threeRateLimits (assetsRequest 0) 1).res = some accepted ∧
    (safeFetch threeRateLimits (assetsRequest 0) 1).res ≠ none := by
  have h3 : ∀ j, j < 3 → (threeRateLimits j).isRateLimit = true := by
    intro j hj
    interval_cases j <;> rfl
  have h := safeFetch_after_transients (assetsRequest 0) accepted 3 threeRateLimits 1
    (by decide) (fun j hj => (threeRateLimits j).isTransient_of_isRateLimit (h3 j hj))
    rfl (by decide)
  refine ⟨h3, h.1, ?_⟩
  rw [h.1]
  exact Option.some_ne_none _

/-- C2, amended: when the first `RETRY_LIMIT + 1` = 4 responses are rate-limit
(429) responses, `safeFetch` called with attempt 1 returns null, after four
requests and the waits of 1 s, 2 s and 3 s. -/
theorem safeFetch_null_after_rate_limits (net : Net) (req : Request)
    (h429 : ∀ j, j < RETRY_LIMIT + 1 → (net j).isRateLimit = true) :
    (safeFetch net req 1).res = none ∧
    (safeFetch net req 1).trace =
      [.fetch req, .sleep 1000, .fetch req, .sleep 2000, .fetch req, .sleep 3000,
        .fetch req] := by
  have ht : ∀ j, j < 4 → (net j).isTransient = true :=
    fun j hj => (net j).isTransient_of_isRateLimit (h429 j hj)
  rw [safeFetch_retry net req 1 (ht 0 (by omega)) (by decide),
    safeFetch_retry net.tail req 2 (ht 1 (by omega)) (by decide),
    safeFetch_retry net.tail.tail req 3 (ht 2 (by omega)) (by decide),
    safeFetch_give_up net.tail.tail.tail req 4 (ht 3 (by omega)) (by decide)]
  exact ⟨rfl, rfl⟩

/-- Rate-limit responses for ever: `safeFetch` returns null after four requests. -/
theorem safeFetch_null_after_rate_limits_witness :
    (∀ j, j < RETRY_LIMIT + 1 → (alwaysRateLimited j).isRateLimit = true) ∧
    (safeFetch alwaysRateLimited (assetsRequest 0) 1).res = none ∧
    requestCount (safeFetch alwaysRateLimited (assetsRequest 0) 1).trace = 4 := by
  have h := safeFetch_null_after_rate_limits alwaysRateLimited (assetsRequest 0)
    (fun _ _ => rfl)
  refine ⟨fun _ _ => rfl, h.1, ?_⟩
  rw [h.2]
  rfl

/-- C4: for every attempt number, when the response has a non-success status
other than 429, `safeFetch` returns null and its only effect is the one
request: no further request, no wait. -/
theorem safeFetch_null_on_http_error (net : Net) (req : Request) (attempt : Nat)
    (res : Response) (h0 : net 0 = .response res) (hok : res.ok = false)
    (hs : res.status ≠ 429) :
    safeFetch net req attempt = { res := none, trace := [.fetch req] } ∧
    requestCount (safeFetch net req attempt).trace = 1 ∧
    waits (safeFetch net req attempt).trace = [] := by
  rw [safeFetch_failure net req attempt res h0 hok hs]
  exact ⟨rfl, rfl, rfl⟩

/-- A status 500 at attempt 2: null after one request and no wait. -/
theorem safeFetch_null_on_http_error_witness :
    safeFetch failing (assetsRequest 0) 2 =
      { res := none, trace := [.fetch (assetsRequest 0)] } :=
  (safeFetch_null_on_http_error failing (assetsRequest 0) 2 serverError rfl
    (by decide) (by decide)).1

/-- C10: for every sequence of outcomes, `safeFetch` called with attempt 1
returns (it is a total function) after at most `RETRY_LIMIT + 1` = 4 requests
and at most `RETRY_LIMIT` = 3 waits; the waits are 1 s, 2 s, 3 s in this
order, one after each request but the last, at most 6 s in total, whether the
retries come from rate limits or from network errors; and it returns null when
every request it issued ended in a 429 or a network error. -/
theorem safeFetch_retry_bounded (net : Net) (req : Request) :
    requestCount (safeFetch net req 1).trace ≤ RETRY_LIMIT + 1 ∧
    (waits (safeFetch net req 1).trace).length ≤ RETRY_LIMIT ∧
    (waits (safeFetch net req 1).trace).length + 1 =
      requestCount (safeFetch net req 1).trace ∧
    waits (safeFetch net req 1).trace =
      [1000, 2000, 3000].take (waits (safeFetch net req 1).trace).length ∧
    (waits (safeFetch net req 1).trace).sum ≤ 6000 ∧
    ((∀ j, j < requestCount (safeFetch net req 1).trace → (net j).isTransient = true) →
      (safeFetch net req 1).res = none) := by
  obtain ⟨hle, hge, hw, hnone⟩ := safeFetch_bounded req 3 net 1 (by decide)
  obtain ⟨c, hc⟩ : ∃ c, requestCount (safeFetch net req 1).trace = c + 1 :=
    ⟨_, (Nat.sub_add_cancel hge).symm⟩
  rw [hc] at hw hle
  simp only [Nat.add_sub_cancel] at hw
  have hc3 : c ≤ 3 := by omega
  have hR : RETRY_LIMIT = 3 := rfl
  refine ⟨by omega, ?_, ?_, ?_, ?_, hnone⟩
  · rw [hw]; simp; omega
  · rw [hw, hc]; simp
  · rw [hw]
    interval_cases c <;> rfl
  · rw [hw]
    interval_cases c <;> decide

/-- A network error, a rate limit, a network error, a rate limit: four
requests, the waits 1 s, 2 s, 3 s, and null. -/
theorem safeFetch_retry_bounded_witness :
    requestCount (safeFetch mixedTransients (assetsRequest 0) 1).trace = 4 ∧
    waits (safeFetch mixedTransients (assetsRequest 0) 1).trace = [1000, 2000, 3000] ∧
    (safeFetch mixedTransients (assetsRequest 0) 1).res = none := by
  have h := safeFetch_retry_bounded mixedTransients (assetsRequest 0)
  have ht : ∀ j, (mixedTransients j).isTransient = true := by
    intro j
    simp only [mixedTransients]
    split <;> rfl
  have hr : requestCount (safeFetch mixedTransients (assetsRequest 0) 1).trace = 4 := by
    rw [safeFetch_retry _ _ 1 (ht 0) (by decide), safeFetch_retry _ _ 2 (ht 1) (by decide),
      safeFetch_retry _ _ 3 (ht 2) (by decide), safeFetch_give_up _ _ 4 (ht 3) (by decide)]
    rfl
  refine ⟨hr, ?_, h.2.2.2.2.2 (fun j _ => ht j)⟩
  have hl : (waits (safeFetch mixedTransients (assetsRequest 0) 1).trace).length = 3 := by
    have := h.2.2.1
    omega
  rw [h.2.2.2.1, hl]
  rfl

/-! ## The payload -/

/-- C6: the price of the payload is `parseFloat(current_price) / 1e18` when
`current_price` is truthy, and `+0` when it is falsy.  For the string
"1000000000000000000" it is exactly 1; for an absent, null or empty
`current_price`, and for the string "0", it is exactly `+0`; for every
`current_price` that reads as zero it is zero, with the sign read.  The
divisor `1e18` is exactly 10^18 = 7812500000000000 * 2^7. -/
theorem payload_price (nft : Asset) (order : Order) (pd : ProtocolData)
    (params : Parameters) (hash : JsVal) :
    (order.current_price.truthy = true →
      (buildPayload nft order pd params hash).price =
        (parseFloat order.current_price).div e18) ∧
    (order.current_price.truthy = false →
      (buildPayload nft order pd params hash).price = JsNumber.zero) ∧
    (order.current_price = .str "1000000000000000000" →
      (buildPayload nft order pd params hash).price = JsNumber.one) ∧
    (order.current_price = .undefined ∨ order.current_price = .null ∨
        order.current_price = .str "" ∨ order.current_price = .str "0" →
      (buildPayload nft order pd params hash).price = JsNumber.zero) ∧
    (∀ neg e, order.current_price.truthy = true →
      parseFloat order.current_price = .fin neg 0 e →
      (buildPayload nft order pd params hash).price = .fin neg 0 (-1074)) ∧
    e18 = .fin false 7812500000000000 7 := by
  have he18 : e18 = .fin false 7812500000000000 7 := by decide
  refine ⟨?_, ?_, ?_, ?_, ?_, he18⟩
  · intro h
    simp [buildPayload, payloadPrice, h]
  · intro h
    simp [buildPayload, payloadPrice, h]
  · intro h
    simp only [buildPayload, payloadPrice, h]
    decide
  · intro h
    rcases h with h | h | h | h <;> simp only [buildPayload, payloadPrice, h] <;> decide
  · intro neg e ht hz
    simp only [buildPayload, payloadPrice, ht, if_true, hz, he18, JsNumber.div]
    simp [roundToDouble]

/-- One ether in wei gives the price 1; no price gives the price 0. -/
theorem payload_price_witness :
    (buildPayload sampleAsset (pricedOrder (.str "1000000000000000000")) sampleProtocol
      sampleParameters (.str "h")).price = JsNumber.one ∧
    (buildPayload sampleAsset (pricedOrder .undefined) sampleProtocol
      sampleParameters (.str "h")).price = JsNumber.zero :=
  ⟨(payload_price sampleAsset (pricedOrder (.str "1000000000000000000")) sampleProtocol
      sampleParameters (.str "h")).2.2.1 rfl,
   (payload_price sampleAsset (pricedOrder .undefined) sampleProtocol
      sampleParameters (.str "h")).2.2.2.1 (Or.inl rfl)⟩

/-- C7, as stated, fails: for the eligible order whose `current_price` is the
string "abc", the price of the payload is NaN, not 0. -/
theorem payload_price_unparsable_not_zero :
    protocolParameters (pricedOrder (.str "abc")) = some (sampleProtocol, sampleParameters) ∧
    (buildPayload sampleAsset (pricedOrder (.str "abc")) sampleProtocol sampleParameters
      (dedupKey sampleAsset (pricedOrder (.str "abc")))).price = JsNumber.nan ∧
    (buildPayload sampleAsset (pricedOrder (.str "abc")) sampleProtocol sampleParameters
      (dedupKey sampleAsset (pricedOrder (.str "abc")))).price ≠ JsNumber.zero := by
  decide

/-- C7, amended: for every eligible sell order whose `current_price` is truthy
and is read by `parseFloat` as NaN, the price of the payload is NaN. -/
theorem payload_price_unparsable (nft : Asset) (order : Order) (pd : ProtocolData)
    (params : Parameters) (_helig : protocolParameters order = some (pd, params))
    (hpresent : order.current_price.truthy = true)
    (hnan : parseFloat order.current_price = JsNumber.nan) :
    (buildPayload nft order pd params (dedupKey nft order)).price = JsNumber.nan := by
  simp [buildPayload, payloadPrice, hpresent, hnan, JsNumber.div]

/-- The price "n/a" gives the price NaN. -/
theorem payload_price_unparsable_witness :
    (buildPayload sampleAsset (pricedOrder (.str "n/a")) sampleProtocol sampleParameters
      (dedupKey sampleAsset (pricedOrder (.str "n/a")))).price = JsNumber.nan :=
  payload_price_unparsable sampleAsset (pricedOrder (.str "n/a")) sampleProtocol
    sampleParameters (by decide) (by decide) (by decide)

/-- C8: for every eligible sell order, the `sellerAddress` of the payload is
the maker address when that is present; otherwise the offerer of the protocol
parameters when that is present; otherwise the string "unknown".  A value is
present when it is truthy: a non-empty string. -/
theorem payload_seller_address (nft : Asset) (order : Order) (pd : ProtocolData)
    (params : Parameters) (helig : protocolParameters order = some (pd, params)) :
    ((makerAddress order).truthy = true →
      (buildPayload nft order pd params (dedupKey nft order)).sellerAddress =
        makerAddress order) ∧
    ((makerAddress order).truthy = false → params.offerer.truthy = true →
      (buildPayload nft order pd params (dedupKey nft order)).sellerAddress =
        params.offerer) ∧
    ((makerAddress order).truthy = false → params.offerer.truthy = false →
      (buildPayload nft order pd params (dedupKey nft order)).sellerAddress =
        .str "unknown") ∧
    order.protocol_data = some pd ∧ pd.parameters = some params := by
  refine ⟨?_, ?_, ?_, ?_⟩
  · intro h
    simp [buildPayload, payloadSeller, JsVal.or, h]
  · intro h1 h2
    simp [buildPayload, payloadSeller, JsVal.or, h1, h2]
  · intro h1 h2
    simp [buildPayload, payloadSeller, JsVal.or, h1, h2]
  · simp only [protocolParameters] at helig
    split at helig
    · exact absurd helig (by simp)
    · rename_i pd2 hpd
      split at helig
      · exact absurd helig (by simp)
      · rename_i params2 hparams
        simp only [Option.some.injEq, Prod.mk.injEq] at helig
        obtain ⟨rfl, rfl⟩ := helig
        exact ⟨hpd, hparams⟩

/-- The three tiers on concrete orders: a maker address, no maker but an
offerer, neither. -/
theorem payload_seller_address_witness :
    (buildPayload sampleAsset (sellerOrder (some { address := .str "0xmaker" }) (.str "0xofferer"))
      { parameters := some { offerer := .str "0xofferer" } } { offerer := .str "0xofferer" }
      (dedupKey sampleAsset
        (sellerOrder (some { address := .str "0xmaker" }) (.str "0xofferer")))).sellerAddress
      = .str "0xmaker" ∧
    (buildPayload sampleAsset (sellerOrder none (.str "0xofferer"))
      { parameters := some { offerer := .str "0xofferer" } } { offerer := .str "0xofferer" }
      (dedupKey sampleAsset (sellerOrder none (.str "0xofferer")))).sellerAddress
      = .str "0xofferer" ∧
    (buildPayload sampleAsset (sellerOrder none .undefined)
      { parameters := some { offerer := .undefined } } { offerer := .undefined }
      (dedupKey sampleAsset (sellerOrder none .undefined))).sellerAddress
      = .str "unknown" :=
  ⟨(payload_seller_address sampleAsset
      (sellerOrder (some { address := .str "0xmaker" }) (.str "0xofferer"))
      { parameters := some { offerer := .str "0xofferer" } } { offerer := .str "0xofferer" }
      rfl).1 (by decide),
   (payload_seller_address sampleAsset (sellerOrder none (.str "0xofferer"))
      { parameters := some { offerer := .str "0xofferer" } } { offerer := .str "0xofferer" }
      rfl).2.1 (by decide) (by decide),
   (payload_seller_address sampleAsset (sellerOrder none .undefined)
      { parameters := some { offerer := .undefined } } { offerer := .undefined }
      rfl).2.2.1 (by decide) (by decide)⟩

/-! ## The loops of main -/

theorem seenKeys_append (pre post : List (Asset × Order)) :
    seenKeys (pre ++ post) = seenKeys pre ++ seenKeys post := by
  simp [seenKeys, List.filter_append]

theorem verdicts_snoc (pre : List (Asset × Order)) (vs : List Verdict) (x : Asset × Order)
    (hlen : vs.length = pre.length)
    (hv : ∀ i p, pre[i]? = some p → vs[i]? = some (verdictOf (pre.take i) p)) :
    ∀ i p, (pre ++ [x])[i]? = some p →
      (vs ++ [verdictOf pre x])[i]? = some (verdictOf ((pre ++ [x]).take i) p) := by
  intro i p hp
  rcases Nat.lt_trichotomy i pre.length with hi | hi | hi
  · rw [List.getElem?_append_left hi] at hp
    rw [List.getElem?_append_left (by omega), List.take_append_of_le_length (by omega)]
    exact hv i p hp
  · subst hi
    rw [List.getElem?_concat_length] at hp
    cases hp
    rw [← hlen, List.getElem?_concat_length, hlen, List.take_left]
  · rw [List.getElem?_eq_none (by simp; omega)] at hp
    cases hp

theorem isFresh_snoc_lt (pre : List (Asset × Order)) (x : Asset × Order) (i : Nat)
    (hi : i < pre.length) : isFresh (pre ++ [x]) i = isFresh pre i := by
  simp only [isFresh, List.getElem?_append_left hi, List.take_append_of_le_length (Nat.le_of_lt hi)]

theorem isFresh_snoc_length (pre : List (Asset × Order)) (x : Asset × Order) :
    isFresh (pre ++ [x]) pre.length = (eligible x.2 && !decide (keyOf x ∈ seenKeys pre)) := by
  simp only [isFresh, List.getElem?_concat_length, List.take_left]

theorem freshCount_snoc (pre : List (Asset × Order)) (x : Asset × Order) :
    freshCount (pre ++ [x]) =
      freshCount pre + (if (eligible x.2 && !decide (keyOf x ∈ seenKeys pre)) = true then 1 else 0) := by
  simp only [freshCount, List.length_append, List.length_singleton, List.range_succ,
    List.filter_append, List.filter_cons, List.filter_nil, isFresh_snoc_length]
  have h : (List.range pre.length).filter (isFresh (pre ++ [x])) =
      (List.range pre.length).filter (isFresh pre) := by
    apply List.filter_congr
    intro i hi
    exact isFresh_snoc_lt pre x i (List.mem_range.1 hi)
  rw [h]
  split <;> simp

theorem forwardedPayloads_append (vs ws : List Verdict) :
    forwardedPayloads (vs ++ ws) = forwardedPayloads vs ++ forwardedPayloads ws := by
  induction vs with
  | nil => rfl
  | cons v vs ih =>
    cases v <;> simp [forwardedPayloads, ih]

theorem processOrder_inv (backend : Nat → Net) (nft : Asset) (order : Order)
    (pre : List (Asset × Order)) (st : SyncState) (inv : OrdersInv pre st) :
    OrdersInv (pre ++ [(nft, order)]) (processOrder backend nft st order) := by
  have hvs := verdicts_snoc pre st.verdicts (nft, order) inv.length inv.verdicts
  have hfc := freshCount_snoc pre (nft, order)
  unfold processOrder
  cases hpp : protocolParameters order with
  | none =>
    have hel : eligible order = false := by simp [eligible, hpp]
    have hvo : verdictOf pre (nft, order) = .ineligible := by simp [verdictOf, hpp]
    rw [hvo] at hvs
    simp only [hel, Bool.false_and] at hfc
    refine ⟨?_, inv.nodup, inv.total, ?_, ?_, hvs, ?_⟩
    · intro k
      simp [seenKeys_append, seenKeys, hel, inv.sent_iff k]
    · simpa [hfc] using inv.fresh
    · simp [inv.length]
    · simp [forwardedPayloads_append, forwardedPayloads, inv.forwarded]
  | some pp =>
    obtain ⟨pd, params⟩ := pp
    have hel : eligible order = true := by simp [eligible, hpp]
    have hseen : seenKeys [(nft, order)] = [dedupKey nft order] := by
      simp [seenKeys, hel, keyOf]
    by_cases hmem : dedupKey nft order ∈ st.SENT_ORDER_HASHES
    · have hmem2 : keyOf (nft, order) ∈ seenKeys pre := (inv.sent_iff _).1 hmem
      have hvo : verdictOf pre (nft, order) = .duplicate (dedupKey nft order) := by
        simp only [verdictOf, hpp, hmem2, if_true]
        rfl
      rw [hvo] at hvs
      simp only [hel, hmem2, decide_True, Bool.not_true, Bool.and_false] at hfc
      simp only [hmem, if_true]
      refine ⟨?_, inv.nodup, inv.total, ?_, ?_, hvs, ?_⟩
      · intro k
        rw [seenKeys_append, hseen, List.mem_append, List.mem_singleton, ← inv.sent_iff k]
        constructor
        · exact Or.inl
        · rintro (h | rfl)
          · exact h
          · exact hmem
      · simpa [hfc] using inv.fresh
      · simp [inv.length]
      · simp [forwardedPayloads_append, forwardedPayloads, inv.forwarded]
    · have hmem2 : ¬ keyOf (nft, order) ∈ seenKeys pre := fun h => hmem ((inv.sent_iff _).2 h)
      have hvo : verdictOf pre (nft, order) =
          .forwarded (buildPayload nft order pd params (dedupKey nft order)) := by
        simp only [verdictOf, hpp, hmem2, if_false]
        rfl
      rw [hvo] at hvs
      simp only [hel, hmem2, decide_False, Bool.not_false, Bool.and_true, if_true] at hfc
      simp only [hmem, if_false]
      refine ⟨?_, ?_, ?_, ?_, ?_, hvs, ?_⟩
      · intro k
        rw [seenKeys_append, hseen, List.mem_append, List.mem_append, inv.sent_iff k]
      · exact List.Nodup.append inv.nodup (List.nodup_singleton _)
          (by
            intro a ha hb
            rw [List.mem_singleton] at hb
            exact hmem (hb ▸ ha))
      · simp [inv.total]
      · simp [hfc, ← inv.fresh]
      · simp [inv.length]
      · simp [forwardedPayloads_append, forwardedPayloads, inv.forwarded, buildPayload]

theorem OrdersInv.of_eq (pre : List (Asset × Order)) (st st2 : SyncState)
    (inv : OrdersInv pre st) (hs : st2.SENT_ORDER_HASHES = st.SENT_ORDER_HASHES) (ht : st2.totalOrders = st.totalOrders)
    (hv : st2.verdicts = st.verdicts) : OrdersInv pre st2 :=
  ⟨by rw [hs]; exact inv.sent_iff, by rw [hs]; exact inv.nodup, by rw [hs, ht]; exact inv.total,
    by rw [ht]; exact inv.fresh, by rw [hv]; exact inv.length, by rw [hv]; exact inv.verdicts,
    by rw [hv, hs]; exact inv.forwarded⟩

theorem processOrder_frame (backend : Nat → Net) (nft : Asset) (st : SyncState) (order : Order) :
    (processOrder backend nft st order).offset = st.offset ∧
    (processOrder backend nft st order).totalNFT = st.totalNFT ∧
    (processOrder backend nft st order).pageOffsets = st.pageOffsets := by
  unfold processOrder
  split
  · exact ⟨rfl, rfl, rfl⟩
  · by_cases h : dedupKey nft order ∈ st.SENT_ORDER_HASHES <;> simp [h]

theorem foldl_processOrder_frame (backend : Nat → Net) (nft : Asset) :
    ∀ (orders : List Order) (st : SyncState),
      (orders.foldl (processOrder backend nft) st).offset = st.offset ∧
      (orders.foldl (processOrder backend nft) st).pageOffsets = st.pageOffsets := by
  intro orders
  induction orders with
  | nil =>
    intro st
    exact ⟨rfl, rfl⟩
  | cons order orders ih =>
    intro st
    have h := ih (processOrder backend nft st order)
    have hf := processOrder_frame backend nft st order
    simp only [List.foldl_cons]
    exact ⟨h.1.trans hf.1, h.2.trans hf.2.2⟩

theorem foldl_processOrder_inv (backend : Nat → Net) (nft : Asset) :
    ∀ (orders : List Order) (pre : List (Asset × Order)) (st : SyncState), OrdersInv pre st →
      OrdersInv (pre ++ orders.map (fun order => (nft, order)))
        (orders.foldl (processOrder backend nft) st) ∧
      (orders.foldl (processOrder backend nft) st).offset = st.offset ∧
      (orders.foldl (processOrder backend nft) st).totalNFT = st.totalNFT ∧
      (orders.foldl (processOrder backend nft) st).pageOffsets = st.pageOffsets := by
  intro orders
  induction orders with
  | nil =>
    intro pre st inv
    simpa using inv
  | cons order orders ih =>
    intro pre st inv
    have h := ih (pre ++ [(nft, order)]) (processOrder backend nft st order)
      (processOrder_inv backend nft order pre st inv)
    have hf := processOrder_frame backend nft st order
    simp only [List.foldl_cons, List.map_cons]
    rw [List.append_assoc] at h
    exact ⟨h.1, h.2.1.trans hf.1, h.2.2.1.trans hf.2.1, h.2.2.2.trans hf.2.2⟩

theorem processAsset_inv (backend : Nat → Net) (nft : Asset) (pre : List (Asset × Order))
    (st : SyncState) (inv : OrdersInv pre st) :
    OrdersInv (pre ++ assetOrders nft) (processAsset backend st nft) ∧
    (processAsset backend st nft).offset = st.offset ∧
    (processAsset backend st nft).totalNFT = st.totalNFT + 1 ∧
    (processAsset backend st nft).pageOffsets = st.pageOffsets := by
  have inv1 : OrdersInv pre { st with totalNFT := st.totalNFT + 1 } :=
    inv.of_eq pre st _ rfl rfl rfl
  cases hso : nft.sell_orders with
  | none =>
    have e : processAsset backend st nft = { st with totalNFT := st.totalNFT + 1 } := by
      simp [processAsset, hso]
    have e2 : assetOrders nft = [] := by simp [assetOrders, sellOrders, hso]
    rw [e, e2, List.append_nil]
    exact ⟨inv1, rfl, rfl, rfl⟩
  | some orders =>
    have e2 : assetOrders nft = orders.map (fun order => (nft, order)) := by
      simp [assetOrders, sellOrders, hso]
    by_cases hlen : orders.length = 0
    · have e : processAsset backend st nft = { st with totalNFT := st.totalNFT + 1 } := by
        simp [processAsset, hso, hlen]
      have : orders = [] := List.length_eq_zero.1 hlen
      subst this
      rw [e, e2, List.map_nil, List.append_nil]
      exact ⟨inv1, rfl, rfl, rfl⟩
    · have e : processAsset backend st nft =
          orders.foldl (processOrder backend nft) { st with totalNFT := st.totalNFT + 1 } := by
        simp only [processAsset, hso, hlen, if_false]
      rw [e, e2]
      exact foldl_processOrder_inv backend nft orders pre _ inv1

theorem foldl_processAsset_inv (backend : Nat → Net) :
    ∀ (assets : List Asset) (pre : List (Asset × Order)) (st : SyncState), OrdersInv pre st →
      OrdersInv (pre ++ assets.flatMap assetOrders) (assets.foldl (processAsset backend) st) ∧
      (assets.foldl (processAsset backend) st).offset = st.offset ∧
      (assets.foldl (processAsset backend) st).totalNFT = st.totalNFT + assets.length ∧
      (assets.foldl (processAsset backend) st).pageOffsets = st.pageOffsets := by
  intro assets
  induction assets with
  | nil =>
    intro pre st inv
    simpa using inv
  | cons nft assets ih =>
    intro pre st inv
    have hp := processAsset_inv backend nft pre st inv
    have h := ih (pre ++ assetOrders nft) (processAsset backend st nft) hp.1
    simp only [List.foldl_cons, List.flatMap_cons, List.length_cons]
    rw [List.append_assoc] at h
    refine ⟨h.1, h.2.1.trans hp.2.1, ?_, h.2.2.2.trans hp.2.2.2⟩
    rw [h.2.2.1, hp.2.2.1]
    omega

theorem foldl_processAsset_frame (backend : Nat → Net) :
    ∀ (assets : List Asset) (st : SyncState),
      (assets.foldl (processAsset backend) st).offset = st.offset ∧
      (assets.foldl (processAsset backend) st).pageOffsets = st.pageOffsets := by
  intro assets
  induction assets with
  | nil =>
    intro st
    exact ⟨rfl, rfl⟩
  | cons nft assets ih =>
    intro st
    have h := ih (processAsset backend st nft)
    have hp : (processAsset backend st nft).offset = st.offset ∧
        (processAsset backend st nft).pageOffsets = st.pageOffsets := by
      unfold processAsset
      cases nft.sell_orders with
      | none => exact ⟨rfl, rfl⟩
      | some orders =>
        by_cases hlen : orders.length = 0
        · simp [hlen]
        · simp only [hlen, if_false]
          have hf := foldl_processOrder_frame backend nft orders
            { st with totalNFT := st.totalNFT + 1 }
          exact ⟨hf.1, hf.2⟩
    simp only [List.foldl_cons]
    exact ⟨h.1.trans hp.1, h.2.trans hp.2⟩

theorem visitedOrders_snoc (pages : List (List Asset)) (page : List Asset) :
    visitedOrders (pages ++ [page]) = visitedOrders pages ++ page.flatMap assetOrders := by
  simp [visitedOrders, List.flatMap_append]

theorem mainLoop_inv (market backend : Nat → Net) :
    ∀ (fuel : Nat) (st : SyncState), LoopInv market st →
      st.offset = st.pageOffsets.length * PAGE_SIZE →
      LoopInv market (mainLoop market backend fuel st).state := by
  intro fuel
  induction fuel with
  | zero =>
    intro st inv _
    exact inv
  | succ fuel ih =>
    intro st inv hoff
    have hoffs : st.pageOffsets ++ [st.offset] =
        (List.range (st.pageOffsets ++ [st.offset]).length).map (fun i => i * PAGE_SIZE) := by
      rw [List.length_append, List.length_singleton, List.range_succ, List.map_append,
        ← inv.offsets, hoff]
      rfl
    simp only [mainLoop]
    split
    · rename_i hempty
      have hpage : pageAt market st.offset = [] := List.length_eq_zero.1 hempty
      refine ⟨?_, ?_, hoffs⟩
      · have : visitedOrders (pagesRead market st ++ [pageAt market st.offset]) =
            visitedOrders (pagesRead market st) := by
          rw [visitedOrders_snoc, hpage]
          simp
        simp only [pagesRead, List.map_append, List.map_cons, List.map_nil]
        simp only [pagesRead] at this
        rw [this]
        exact inv.orders.of_eq _ st _ rfl rfl rfl
      · simp only [pagesRead, List.map_append, List.map_cons, List.map_nil, List.sum_append,
          hpage, List.length_nil, List.sum_cons, List.sum_nil, Nat.add_zero]
        exact inv.nft
    · have inv1 : OrdersInv (visitedOrders (pagesRead market st))
          { st with
            trace := st.trace ++ (fetchOpenseaAssets (market st.offset) st.offset).trace
            pageOffsets := st.pageOffsets ++ [st.offset] } :=
        inv.orders.of_eq _ st _ rfl rfl rfl
      have h := foldl_processAsset_inv backend
        (fetchOpenseaAssets (market st.offset) st.offset).assets _ _ inv1
      apply ih
      · refine ⟨?_, ?_, ?_⟩
        · have hv : visitedOrders (pagesRead market st ++ [pageAt market st.offset]) =
              visitedOrders (pagesRead market st) ++
                (fetchOpenseaAssets (market st.offset) st.offset).assets.flatMap assetOrders :=
            visitedOrders_snoc _ _
          simp only [pagesRead, h.2.2.2, List.map_append, List.map_cons, List.map_nil]
          simp only [pagesRead] at hv
          rw [hv]
          exact h.1.of_eq _ _ _ rfl rfl rfl
        · simp only [pagesRead, h.2.2.2, h.2.2.1, List.map_append, List.map_cons, List.map_nil,
            List.sum_append, List.sum_cons, List.sum_nil, Nat.add_zero, pageAt]
          rw [inv.nft]
          rfl
        · simp only [h.2.2.2]
          exact hoffs
      · show (List.foldl (processAsset backend) _ _).offset + PAGE_SIZE =
          (List.foldl (processAsset backend) _ _).pageOffsets.length * PAGE_SIZE
        rw [h.2.1, h.2.2.2]
        simp only [List.length_append, List.length_singleton, hoff, Nat.add_mul, Nat.one_mul]

theorem LoopInv.init (market : Nat → Net) : LoopInv market SyncState.init := by
  refine ⟨⟨?_, ?_, rfl, rfl, rfl, ?_, rfl⟩, rfl, rfl⟩
  · intro k
    simp [SyncState.init, pagesRead, visitedOrders, seenKeys]
  · exact List.nodup_nil
  · intro i p hp
    simp [SyncState.init, pagesRead, visitedOrders] at hp

theorem mainLoop_succ_empty (market backend : Nat → Net) (fuel : Nat) (st : SyncState)
    (hpage : pageAt market st.offset = []) :
    mainLoop market backend (fuel + 1) st =
      { finished := true
        state := { st with
          trace := st.trace ++ (fetchOpenseaAssets (market st.offset) st.offset).trace
          pageOffsets := st.pageOffsets ++ [st.offset] } } := by
  have h : (fetchOpenseaAssets (market st.offset) st.offset).assets.length = 0 := by
    simp only [pageAt] at hpage
    rw [hpage]
    rfl
  simp only [mainLoop, h, if_true]

theorem mainLoop_succ_nonempty (market backend : Nat → Net) (fuel : Nat) (st : SyncState)
    (hpage : pageAt market st.offset ≠ []) :
    mainLoop market backend (fuel + 1) st = mainLoop market backend fuel (pageStep market backend st) ∧
    (pageStep market backend st).offset = st.offset + PAGE_SIZE ∧
    (pageStep market backend st).pageOffsets = st.pageOffsets ++ [st.offset] := by
  have h : ¬ (fetchOpenseaAssets (market st.offset) st.offset).assets.length = 0 := by
    intro h0
    exact hpage (List.length_eq_zero.1 h0)
  have hf := foldl_processAsset_frame backend
    (fetchOpenseaAssets (market st.offset) st.offset).assets
    { st with
      trace := st.trace ++ (fetchOpenseaAssets (market st.offset) st.offset).trace
      pageOffsets := st.pageOffsets ++ [st.offset] }
  refine ⟨?_, ?_, ?_⟩
  · simp only [mainLoop, h, if_false]
    rfl
  · show (List.foldl (processAsset backend) _ _).offset + PAGE_SIZE = _
    rw [hf.1]
  · show (List.foldl (processAsset backend) _ _).pageOffsets = _
    rw [hf.2]

/-- While the pages are non-empty the loop goes on, reading the offsets in order. -/
theorem mainLoop_running (market backend : Nat → Net) :
    ∀ (fuel : Nat) (st : SyncState),
      (∀ i, i < fuel → pageAt market (st.offset + i * PAGE_SIZE) ≠ []) →
      (mainLoop market backend fuel st).finished = false ∧
      (mainLoop market backend fuel st).state.pageOffsets =
        st.pageOffsets ++ (List.range fuel).map (fun i => st.offset + i * PAGE_SIZE) ∧
      (mainLoop market backend fuel st).state.offset = st.offset + fuel * PAGE_SIZE := by
  intro fuel
  induction fuel with
  | zero =>
    intro st _
    simp [mainLoop]
  | succ fuel ih =>
    intro st hne
    obtain ⟨h1, h2, h3⟩ := mainLoop_succ_nonempty market backend fuel st
      (by simpa using hne 0 (by omega))
    have h := ih (pageStep market backend st) (by
      intro i hi
      rw [h2]
      have := hne (i + 1) (by omega)
      rwa [Nat.add_mul, Nat.one_mul, Nat.add_comm (i * PAGE_SIZE), ← Nat.add_assoc] at this)
    rw [h1]
    refine ⟨h.1, ?_, ?_⟩
    · rw [h.2.1, h3, h2, List.range_succ_eq_map, List.map_cons, List.map_map,
        List.append_assoc]
      simp [Function.comp_def, Nat.add_mul, Nat.add_assoc, Nat.add_comm PAGE_SIZE]
    · rw [h.2.2, h2]
      simp only [Nat.add_mul, Nat.one_mul]
      omega

/-- The loop ends at the first empty page, whatever fuel is left. -/
theorem mainLoop_finishes (market backend : Nat → Net) :
    ∀ (k fuel : Nat) (st : SyncState), k < fuel →
      (∀ i, i < k → pageAt market (st.offset + i * PAGE_SIZE) ≠ []) →
      pageAt market (st.offset + k * PAGE_SIZE) = [] →
      (mainLoop market backend fuel st).finished = true ∧
      (mainLoop market backend fuel st).state.pageOffsets =
        st.pageOffsets ++ (List.range (k + 1)).map (fun i => st.offset + i * PAGE_SIZE) ∧
      (mainLoop market backend fuel st).state.offset = st.offset + k * PAGE_SIZE ∧
      mainLoop market backend fuel st = mainLoop market backend (k + 1) st := by
  intro k
  induction k with
  | zero =>
    intro fuel st hfuel _ hempty
    obtain ⟨f, rfl⟩ : ∃ f, fuel = f + 1 := ⟨fuel - 1, by omega⟩
    simp only [Nat.zero_mul, Nat.add_zero] at hempty
    rw [mainLoop_succ_empty market backend f st hempty,
      mainLoop_succ_empty market backend 0 st hempty]
    simp [List.range_succ]
  | succ k ih =>
    intro fuel st hfuel hne hempty
    obtain ⟨f, rfl⟩ : ∃ f, fuel = f + 1 := ⟨fuel - 1, by omega⟩
    have h0 : pageAt market st.offset ≠ [] := by simpa using hne 0 (by omega)
    obtain ⟨h1, h2, h3⟩ := mainLoop_succ_nonempty market backend f st h0
    obtain ⟨h4, _, _⟩ := mainLoop_succ_nonempty market backend (k + 1) st h0
    have h := ih f (pageStep market backend st) (by omega)
      (by
        intro i hi
        rw [h2]
        have := hne (i + 1) (by omega)
        rwa [Nat.add_mul, Nat.one_mul, Nat.add_comm (i * PAGE_SIZE), ← Nat.add_assoc] at this)
      (by
        rw [h2]
        rwa [Nat.add_mul, Nat.one_mul, Nat.add_comm (k * PAGE_SIZE), ← Nat.add_assoc] at hempty)
    rw [h1, h4]
    refine ⟨h.1, ?_, ?_, h.2.2.2⟩
    · rw [h.2.1, h3, h2, List.range_succ_eq_map (k + 1), List.map_cons, List.map_map,
        List.append_assoc]
      simp [Function.comp_def, Nat.add_mul, Nat.add_assoc, Nat.add_comm PAGE_SIZE]
    · rw [h.2.2.1, h2]
      simp only [Nat.add_mul, Nat.one_mul]
      omega

theorem pageAt_marketOfPages (pages : List (List Asset)) (o : Nat) :
    pageAt (marketOfPages pages) o = pages.getD (o / PAGE_SIZE) [] := by
  simp only [pageAt, fetchOpenseaAssets]
  rw [safeFetch_success (marketOfPages pages o) (assetsRequest o) 1 _ rfl rfl]

theorem stateAfter_inv (market backend : Nat → Net) (fuel : Nat) :
    LoopInv market (stateAfter market backend fuel) :=
  mainLoop_inv market backend fuel SyncState.init (LoopInv.init market) rfl

theorem visitedOrders_pagesRead_finished (market backend : Nat → Net) (k fuel : Nat)
    (hk : ∀ i, i < k → pageAt market (i * PAGE_SIZE) ≠ [])
    (hempty : pageAt market (k * PAGE_SIZE) = []) (hfuel : k < fuel) :
    main market backend fuel = some (stateAfter market backend fuel) ∧
    (stateAfter market backend fuel).pageOffsets =
      (List.range (k + 1)).map (fun i => i * PAGE_SIZE) ∧
    (stateAfter market backend fuel).offset = k * PAGE_SIZE ∧
    pagesRead market (stateAfter market backend fuel) = pagesBefore market k ++ [[]] := by
  have h := mainLoop_finishes market backend k fuel SyncState.init hfuel
    (by simpa [SyncState.init] using hk) (by simpa [SyncState.init] using hempty)
  have hoffs : (stateAfter market backend fuel).pageOffsets =
      (List.range (k + 1)).map (fun i => i * PAGE_SIZE) := by
    simpa [SyncState.init, stateAfter] using h.2.1
  refine ⟨?_, hoffs, ?_, ?_⟩
  · simp only [main, h.1, if_true, stateAfter]
  · simpa [SyncState.init, stateAfter] using h.2.2.1
  · rw [pagesRead, hoffs, List.map_map, List.range_succ, List.map_append, pagesBefore]
    simp [Function.comp_def, hempty]

/-! ## The requests to the backend -/

theorem safeFetch_trace_mem (req : Request) :
    ∀ (d : Nat) (net : Net) (attempt : Nat), RETRY_LIMIT + 1 - attempt = d →
      ∀ e, e ∈ (safeFetch net req attempt).trace → e = .fetch req ∨ ∃ ms, e = .sleep ms := by
  intro d
  induction d with
  | zero =>
    intro net attempt ha e he
    cases ht : (net 0).isTransient with
    | true =>
      rw [safeFetch_give_up net req attempt ht (by omega)] at he
      exact Or.inl (List.mem_singleton.1 he)
    | false =>
      rw [safeFetch_final net req attempt ht] at he
      exact Or.inl (List.mem_singleton.1 he)
  | succ d ih =>
    intro net attempt ha e he
    cases ht : (net 0).isTransient with
    | true =>
      rw [safeFetch_retry net req attempt ht (by omega)] at he
      simp only [List.mem_cons] at he
      rcases he with he | he | he
      · exact Or.inl he
      · exact Or.inr ⟨_, he⟩
      · exact ih net.tail (attempt + 1) (by omega) e he
    | false =>
      rw [safeFetch_final net req attempt ht] at he
      exact Or.inl (List.mem_singleton.1 he)

theorem postBodies_append (t u : List Effect) :
    postBodies (t ++ u) = postBodies t ++ postBodies u := by
  simp [postBodies, List.filterMap_append]

theorem postBodies_of_posts (req : Request) (p : Payload)
    (hp : postedPayload (.fetch req) = some p) :
    ∀ t : List Effect, (∀ e, e ∈ t → e = .fetch req ∨ ∃ ms, e = .sleep ms) →
      postBodies t = List.replicate (requestCount t) p := by
  intro t
  induction t with
  | nil =>
    intro _
    rfl
  | cons e t ih =>
    intro h
    have ht := ih (fun e he => h e (List.mem_cons_of_mem _ he))
    rcases h e (List.mem_cons_self _ _) with he | ⟨ms, he⟩
    · subst he
      simp only [postBodies, List.filterMap_cons, hp, requestCount, List.replicate_succ]
      simp only [postBodies] at ht
      rw [ht]
    · subst he
      simp only [postBodies, List.filterMap_cons, postedPayload, requestCount]
      simp only [postBodies] at ht
      rw [ht]

theorem postBodies_of_gets (req : Request) (hp : postedPayload (.fetch req) = none) :
    ∀ t : List Effect, (∀ e, e ∈ t → e = .fetch req ∨ ∃ ms, e = .sleep ms) →
      postBodies t = [] := by
  intro t
  induction t with
  | nil =>
    intro _
    rfl
  | cons e t ih =>
    intro h
    have ht := ih (fun e he => h e (List.mem_cons_of_mem _ he))
    rcases h e (List.mem_cons_self _ _) with he | ⟨ms, he⟩
    · subst he
      simp only [postBodies, List.filterMap_cons, hp]
      simp only [postBodies] at ht
      rw [ht]
    · subst he
      simp only [postBodies, List.filterMap_cons, postedPayload]
      simp only [postBodies] at ht
      rw [ht]

theorem postOrderToBackend_trace (net : Net) (p : Payload) :
    (postOrderToBackend net p).trace = (safeFetch net (orderRequest p) 1).trace := by
  unfold postOrderToBackend
  simp only []
  split
  · rfl
  · split
    · rfl
    · split <;> rfl

theorem fetchOpenseaAssets_trace (net : Net) (offset : Nat) :
    (fetchOpenseaAssets net offset).trace = (safeFetch net (assetsRequest offset) 1).trace := by
  unfold fetchOpenseaAssets
  simp only []
  split
  · rfl
  · split
    · rfl
    · split <;> rfl

theorem postBodies_postOrderToBackend (net : Net) (p : Payload) :
    postBodies (postOrderToBackend net p).trace =
      List.replicate (requestCount (postOrderToBackend net p).trace) p := by
  rw [postOrderToBackend_trace]
  exact postBodies_of_posts (orderRequest p) p rfl _
    (safeFetch_trace_mem (orderRequest p) _ net 1 rfl)

theorem postBodies_fetchOpenseaAssets (net : Net) (offset : Nat) :
    postBodies (fetchOpenseaAssets net offset).trace = [] := by
  rw [fetchOpenseaAssets_trace]
  exact postBodies_of_gets (assetsRequest offset) rfl _
    (safeFetch_trace_mem (assetsRequest offset) _ net 1 rfl)

theorem requestCount_postOrderToBackend (net : Net) (p : Payload) :
    1 ≤ requestCount (postOrderToBackend net p).trace ∧
    requestCount (postOrderToBackend net p).trace ≤ RETRY_LIMIT + 1 := by
  rw [postOrderToBackend_trace]
  have h := safeFetch_bounded (orderRequest p) 3 net 1 (by decide)
  exact ⟨h.2.1, h.1⟩

theorem postsOf_snoc (backend : Nat → Net) (p : Payload) :
    ∀ (ps : List Payload) (k : Nat),
      postsOf backend k (ps ++ [p]) =
        postsOf backend k ps ++
          List.replicate (requestCount (postOrderToBackend (backend (k + ps.length)) p).trace) p := by
  intro ps
  induction ps with
  | nil =>
    intro k
    simp [postsOf]
  | cons q qs ih =>
    intro k
    have hk : k + 1 + qs.length = k + (qs.length + 1) := by omega
    have h := ih (k + 1)
    rw [hk] at h
    show List.replicate _ q ++ postsOf backend (k + 1) (qs ++ [p]) = _
    rw [h]
    simp only [postsOf, List.append_assoc, List.length_cons]

theorem postsOf_filter_not_mem (backend : Nat → Net) (h : JsVal) :
    ∀ (ps : List Payload) (k : Nat), h ∉ ps.map (fun payload => payload.orderHash) →
      (postsOf backend k ps).filter (fun q => decide (q.orderHash = h)) = [] := by
  intro ps
  induction ps with
  | nil =>
    intro k _
    rfl
  | cons q qs ih =>
    intro k hnot
    simp only [List.map_cons, List.mem_cons, not_or] at hnot
    have hq : ¬ q.orderHash = h := fun e => hnot.1 e.symm
    simp only [postsOf, List.filter_append, List.filter_replicate, hq, decide_False,
      ih (k + 1) hnot.2, List.append_nil]
    rfl

theorem postsOf_filter_mem (backend : Nat → Net) :
    ∀ (ps : List Payload) (k0 : Nat), (ps.map (fun payload => payload.orderHash)).Nodup →
      ∀ (k : Nat) (p : Payload), ps[k]? = some p →
        (postsOf backend k0 ps).filter (fun q => decide (q.orderHash = p.orderHash)) =
          List.replicate (requestCount (postOrderToBackend (backend (k0 + k)) p).trace) p := by
  intro ps
  induction ps with
  | nil =>
    intro k0 _ k p hp
    simp at hp
  | cons q qs ih =>
    intro k0 hnd k p hp
    rw [List.map_cons, List.nodup_cons] at hnd
    cases k with
    | zero =>
      rw [List.getElem?_cons_zero] at hp
      cases hp
      simp only [postsOf, List.filter_append, List.filter_replicate, decide_True, if_true,
        postsOf_filter_not_mem backend q.orderHash qs (k0 + 1) hnd.1, List.append_nil,
        Nat.add_zero]
    | succ k =>
      rw [List.getElem?_cons_succ] at hp
      have hne : ¬ q.orderHash = p.orderHash := by
        intro e
        apply hnd.1
        rw [e]
        exact List.mem_map_of_mem _ (List.getElem?_mem hp)
      simp only [postsOf, List.filter_append, List.filter_replicate, hne, decide_False,
        ih (k0 + 1) hnd.2 k p hp]
      simp [Nat.add_assoc, Nat.add_comm 1]

theorem PostsInv.of_same_posts (backend : Nat → Net) (st st2 : SyncState) (inv : PostsInv backend st)
    (htr : postBodies st2.trace = postBodies st.trace)
    (ht : st2.totalOrders = st.totalOrders) (hv : st2.verdicts = st.verdicts) :
    PostsInv backend st2 :=
  ⟨by rw [htr, hv]; exact inv.posts, by rw [ht, hv]; exact inv.count⟩

theorem processOrder_posts (backend : Nat → Net) (nft : Asset) (order : Order)
    (st : SyncState) (inv : PostsInv backend st) :
    PostsInv backend (processOrder backend nft st order) := by
  unfold processOrder
  cases hpp : protocolParameters order with
  | none =>
    refine ⟨?_, ?_⟩
    · simpa [forwardedPayloads_append, forwardedPayloads] using inv.posts
    · simpa [forwardedPayloads_append, forwardedPayloads] using inv.count
  | some pp =>
    obtain ⟨pd, params⟩ := pp
    by_cases hmem : dedupKey nft order ∈ st.SENT_ORDER_HASHES
    · simp only [hmem, if_true]
      refine ⟨?_, ?_⟩
      · simpa [forwardedPayloads_append, forwardedPayloads] using inv.posts
      · simpa [forwardedPayloads_append, forwardedPayloads] using inv.count
    · simp only [hmem, if_false]
      refine ⟨?_, ?_⟩
      · have hf : forwardedPayloads
            [Verdict.forwarded (buildPayload nft order pd params (dedupKey nft order))] =
            [buildPayload nft order pd params (dedupKey nft order)] := rfl
        simp only [postBodies_append, forwardedPayloads_append, hf, postsOf_snoc, inv.posts,
          postBodies_postOrderToBackend, Nat.zero_add, inv.count]
      · simp [forwardedPayloads_append, forwardedPayloads, inv.count]

theorem foldl_processOrder_posts (backend : Nat → Net) (nft : Asset) :
    ∀ (orders : List Order) (st : SyncState), PostsInv backend st →
      PostsInv backend (orders.foldl (processOrder backend nft) st) := by
  intro orders
  induction orders with
  | nil =>
    intro st inv
    exact inv
  | cons order orders ih =>
    intro st inv
    exact ih _ (processOrder_posts backend nft order st inv)

theorem processAsset_posts (backend : Nat → Net) (nft : Asset) (st : SyncState)
    (inv : PostsInv backend st) : PostsInv backend (processAsset backend st nft) := by
  have inv1 : PostsInv backend { st with totalNFT := st.totalNFT + 1 } :=
    inv.of_same_posts backend st _ rfl rfl rfl
  unfold processAsset
  cases nft.sell_orders with
  | none => exact inv1
  | some orders =>
    by_cases hlen : orders.length = 0
    · simp only [hlen, if_true]
      exact inv1
    · simp only [hlen, if_false]
      exact foldl_processOrder_posts backend nft orders _ inv1

theorem foldl_processAsset_posts (backend : Nat → Net) :
    ∀ (assets : List Asset) (st : SyncState), PostsInv backend st →
      PostsInv backend (assets.foldl (processAsset backend) st) := by
  intro assets
  induction assets with
  | nil =>
    intro st inv
    exact inv
  | cons nft assets ih =>
    intro st inv
    exact ih _ (processAsset_posts backend nft st inv)

theorem mainLoop_posts (market backend : Nat → Net) :
    ∀ (fuel : Nat) (st : SyncState), PostsInv backend st →
      PostsInv backend (mainLoop market backend fuel st).state := by
  intro fuel
  induction fuel with
  | zero =>
    intro st inv
    exact inv
  | succ fuel ih =>
    intro st inv
    have inv1 : PostsInv backend
        { st with
          trace := st.trace ++ (fetchOpenseaAssets (market st.offset) st.offset).trace
          pageOffsets := st.pageOffsets ++ [st.offset] } :=
      inv.of_same_posts backend st _
        (by simp [postBodies_append, postBodies_fetchOpenseaAssets]) rfl rfl
    simp only [mainLoop]
    split
    · exact inv1
    · apply ih
      exact (foldl_processAsset_posts backend _ _ inv1).of_same_posts backend _ _ rfl rfl rfl

theorem stateAfter_posts (market backend : Nat → Net) (fuel : Nat) :
    PostsInv backend (stateAfter market backend fuel) :=
  mainLoop_posts market backend fuel SyncState.init ⟨rfl, rfl⟩

/-! ## The requests to the marketplace -/

theorem getRequests_append (t u : List Effect) :
    getRequests (t ++ u) = getRequests t ++ getRequests u := by
  simp [getRequests, List.filterMap_append]

theorem getRequests_of_gets (req : Request) (hp : sentGet (.fetch req) = some req) :
    ∀ t : List Effect, (∀ e, e ∈ t → e = .fetch req ∨ ∃ ms, e = .sleep ms) →
      getRequests t = List.replicate (requestCount t) req := by
  intro t
  induction t with
  | nil =>
    intro _
    rfl
  | cons e t ih =>
    intro h
    have ht := ih (fun e he => h e (List.mem_cons_of_mem _ he))
    rcases h e (List.mem_cons_self _ _) with he | ⟨ms, he⟩
    · subst he
      simp only [getRequests, List.filterMap_cons, hp, requestCount, List.replicate_succ]
      simp only [getRequests] at ht
      rw [ht]
    · subst he
      simp only [getRequests, List.filterMap_cons, sentGet, requestCount]
      simp only [getRequests] at ht
      rw [ht]

theorem getRequests_of_posts (req : Request) (hp : sentGet (.fetch req) = none) :
    ∀ t : List Effect, (∀ e, e ∈ t → e = .fetch req ∨ ∃ ms, e = .sleep ms) →
      getRequests t = [] := by
  intro t
  induction t with
  | nil =>
    intro _
    rfl
  | cons e t ih =>
    intro h
    have ht := ih (fun e he => h e (List.mem_cons_of_mem _ he))
    rcases h e (List.mem_cons_self _ _) with he | ⟨ms, he⟩
    · subst he
      simp only [getRequests, List.filterMap_cons, hp]
      simp only [getRequests] at ht
      rw [ht]
    · subst he
      simp only [getRequests, List.filterMap_cons, sentGet]
      simp only [getRequests] at ht
      rw [ht]

theorem getRequests_fetchOpenseaAssets (net : Net) (offset : Nat) :
    getRequests (fetchOpenseaAssets net offset).trace =
      List.replicate (requestCount (fetchOpenseaAssets net offset).trace)
        (assetsRequest offset) := by
  rw [fetchOpenseaAssets_trace]
  exact getRequests_of_gets (assetsRequest offset) rfl _
    (safeFetch_trace_mem (assetsRequest offset) _ net 1 rfl)

theorem getRequests_postOrderToBackend (net : Net) (p : Payload) :
    getRequests (postOrderToBackend net p).trace = [] := by
  rw [postOrderToBackend_trace]
  exact getRequests_of_posts (orderRequest p) rfl _
    (safeFetch_trace_mem (orderRequest p) _ net 1 rfl)

theorem requestCount_fetchOpenseaAssets (net : Net) (offset : Nat) :
    1 ≤ requestCount (fetchOpenseaAssets net offset).trace ∧
    requestCount (fetchOpenseaAssets net offset).trace ≤ RETRY_LIMIT + 1 := by
  rw [fetchOpenseaAssets_trace]
  have h := safeFetch_bounded (assetsRequest offset) 3 net 1 (by decide)
  exact ⟨h.2.1, h.1⟩

theorem processOrder_gets (backend : Nat → Net) (nft : Asset) (st : SyncState) (order : Order) :
    getRequests (processOrder backend nft st order).trace = getRequests st.trace := by
  unfold processOrder
  split
  · rfl
  · by_cases h : dedupKey nft order ∈ st.SENT_ORDER_HASHES
    · simp [h]
    · simp [h, getRequests_append, getRequests_postOrderToBackend]

theorem foldl_processOrder_gets (backend : Nat → Net) (nft : Asset) :
    ∀ (orders : List Order) (st : SyncState),
      getRequests (orders.foldl (processOrder backend nft) st).trace = getRequests st.trace := by
  intro orders
  induction orders with
  | nil =>
    intro st
    rfl
  | cons order orders ih =>
    intro st
    simp only [List.foldl_cons]
    rw [ih, processOrder_gets]

theorem processAsset_gets (backend : Nat → Net) (st : SyncState) (nft : Asset) :
    getRequests (processAsset backend st nft).trace = getRequests st.trace := by
  unfold processAsset
  cases nft.sell_orders with
  | none => rfl
  | some orders =>
    by_cases hlen : orders.length = 0
    · simp [hlen]
    · simp only [hlen, if_false]
      rw [foldl_processOrder_gets]

theorem foldl_processAsset_gets (backend : Nat → Net) :
    ∀ (assets : List Asset) (st : SyncState),
      getRequests (assets.foldl (processAsset backend) st).trace = getRequests st.trace := by
  intro assets
  induction assets with
  | nil =>
    intro st
    rfl
  | cons nft assets ih =>
    intro st
    simp only [List.foldl_cons]
    rw [ih, processAsset_gets]

theorem readsOf_snoc (market : Nat → Net) (offsets : List Nat) (o : Nat) :
    readsOf market (offsets ++ [o]) =
      readsOf market offsets ++
        List.replicate (requestCount (fetchOpenseaAssets (market o) o).trace)
          (assetsRequest o) := by
  simp [readsOf, List.flatMap_append]

theorem mainLoop_gets (market backend : Nat → Net) :
    ∀ (fuel : Nat) (st : SyncState), getRequests st.trace = readsOf market st.pageOffsets →
      getRequests (mainLoop market backend fuel st).state.trace =
        readsOf market (mainLoop market backend fuel st).state.pageOffsets := by
  intro fuel
  induction fuel with
  | zero =>
    intro st inv
    exact inv
  | succ fuel ih =>
    intro st inv
    have inv1 : getRequests
        (st.trace ++ (fetchOpenseaAssets (market st.offset) st.offset).trace) =
        readsOf market (st.pageOffsets ++ [st.offset]) := by
      rw [getRequests_append, readsOf_snoc, inv, getRequests_fetchOpenseaAssets]
    simp only [mainLoop]
    split
    · exact inv1
    · apply ih
      show getRequests (List.foldl (processAsset backend) _ _).trace =
        readsOf market (List.foldl (processAsset backend) _ _).pageOffsets
      rw [foldl_processAsset_gets, (foldl_processAsset_frame backend _ _).2]
      exact inv1

theorem stateAfter_gets (market backend : Nat → Net) (fuel : Nat) :
    getRequests (stateAfter market backend fuel).trace =
      readsOf market (stateAfter market backend fuel).pageOffsets :=
  mainLoop_gets market backend fuel SyncState.init rfl

theorem readsOf_marketOfPages (pages : List (List Asset)) (offsets : List Nat) :
    readsOf (marketOfPages pages) offsets = offsets.map assetsRequest := by
  induction offsets with
  | nil => rfl
  | cons o offsets ih =>
    have h1 : requestCount (fetchOpenseaAssets (marketOfPages pages o) o).trace = 1 := by
      rw [fetchOpenseaAssets_trace,
        safeFetch_success (marketOfPages pages o) (assetsRequest o) 1 _ rfl rfl]
      rfl
    simp only [readsOf, List.flatMap_cons, h1, List.map_cons] at ih ⊢
    rw [ih]
    rfl

/-- C5: `main` ends exactly at the first empty page.  When the pages number
0 to `k - 1` are non-empty and the page number `k` is empty, `main` returns as
soon as its loop may run `k + 1` times, having called `fetchOpenseaAssets` at
the offsets 0, 50, ..., `50 * k` in this order and at no other: the GET
requests of the run are exactly those of these calls, 1 to 4 for each offset,
with the offset in the URL; as long as every page read is non-empty it has
not returned, and has read the offsets 0, 50, ..., in order; so it returns
for some fuel exactly when some page is empty. -/
theorem main_terminates_at_first_empty_page (market backend : Nat → Net) :
    (∀ k, (∀ i, i < k → pageAt market (i * PAGE_SIZE) ≠ []) →
      pageAt market (k * PAGE_SIZE) = [] →
      ∀ fuel, k < fuel →
        ∃ st, main market backend fuel = some st ∧
          st.pageOffsets = (List.range (k + 1)).map (fun i => i * PAGE_SIZE) ∧
          st.offset = k * PAGE_SIZE ∧
          getRequests st.trace =
            readsOf market ((List.range (k + 1)).map (fun i => i * PAGE_SIZE))) ∧
    (∀ fuel, (∀ i, i < fuel → pageAt market (i * PAGE_SIZE) ≠ []) →
      main market backend fuel = none ∧
      (stateAfter market backend fuel).pageOffsets =
        (List.range fuel).map (fun i => i * PAGE_SIZE) ∧
      (stateAfter market backend fuel).offset = fuel * PAGE_SIZE ∧
      getRequests (stateAfter market backend fuel).trace =
        readsOf market ((List.range fuel).map (fun i => i * PAGE_SIZE))) ∧
    ((∃ fuel, (main market backend fuel).isSome = true) ↔
      ∃ k, pageAt market (k * PAGE_SIZE) = []) ∧
    (∀ o, 1 ≤ requestCount (fetchOpenseaAssets (market o) o).trace ∧
      requestCount (fetchOpenseaAssets (market o) o).trace ≤ RETRY_LIMIT + 1 ∧
      (assetsRequest o).method = "GET" ∧
      (assetsRequest o).url =
        "https://api.opensea.io/api/v1/assets?asset_contract_address=" ++
          "0x54a88333F6e7540eA982261301309048aC431eD5" ++
          "&order_direction=desc&offset=" ++ toString o ++ "&limit=50") := by
  have hrun : ∀ fuel, (∀ i, i < fuel → pageAt market (i * PAGE_SIZE) ≠ []) →
      main market backend fuel = none ∧
      (stateAfter market backend fuel).pageOffsets =
        (List.range fuel).map (fun i => i * PAGE_SIZE) ∧
      (stateAfter market backend fuel).offset = fuel * PAGE_SIZE ∧
      getRequests (stateAfter market backend fuel).trace =
        readsOf market ((List.range fuel).map (fun i => i * PAGE_SIZE)) := by
    intro fuel hne
    have h := mainLoop_running market backend fuel SyncState.init
      (by simpa [SyncState.init] using hne)
    have hoffs : (stateAfter market backend fuel).pageOffsets =
        (List.range fuel).map (fun i => i * PAGE_SIZE) := by
      simpa [SyncState.init, stateAfter] using h.2.1
    refine ⟨?_, hoffs, ?_, ?_⟩
    · simp [main, h.1]
    · simpa [SyncState.init, stateAfter] using h.2.2
    · rw [stateAfter_gets, hoffs]
  have hfin : ∀ k, (∀ i, i < k → pageAt market (i * PAGE_SIZE) ≠ []) →
      pageAt market (k * PAGE_SIZE) = [] →
      ∀ fuel, k < fuel →
        ∃ st, main market backend fuel = some st ∧
          st.pageOffsets = (List.range (k + 1)).map (fun i => i * PAGE_SIZE) ∧
          st.offset = k * PAGE_SIZE ∧
          getRequests st.trace =
            readsOf market ((List.range (k + 1)).map (fun i => i * PAGE_SIZE)) := by
    intro k hk hempty fuel hfuel
    have h := visitedOrders_pagesRead_finished market backend k fuel hk hempty hfuel
    refine ⟨_, h.1, h.2.1, h.2.2.1, ?_⟩
    rw [stateAfter_gets, h.2.1]
  refine ⟨hfin, hrun, ⟨?_, ?_⟩, ?_⟩
  · rintro ⟨fuel, hsome⟩
    by_contra hno
    have hne : ∀ i, i < fuel → pageAt market (i * PAGE_SIZE) ≠ [] :=
      fun i _ hi => hno ⟨i, hi⟩
    rw [(hrun fuel hne).1] at hsome
    simp at hsome
  · intro hex
    have hspec := Nat.find_spec hex
    obtain ⟨st, hst, _⟩ := hfin (Nat.find hex)
      (fun i hi hi2 => Nat.find_min hex hi hi2) hspec (Nat.find hex + 1) (by omega)
    exact ⟨Nat.find hex + 1, by simp [hst]⟩
  · intro o
    have h := requestCount_fetchOpenseaAssets (market o) o
    refine ⟨h.1, h.2, rfl, ?_⟩
    have h50 : toString PAGE_SIZE = "50" := by decide
    simp only [assetsRequest, NFT_CONTRACT_ADDRESS, h50]
    rw [String.append_assoc _ "&limit=" "50"]
    rfl

/-- Three reads, at the offsets 0, 50 and 100, for two non-empty pages: one
GET request for each. -/
theorem main_terminates_at_first_empty_page_witness :
    ∃ st, main twoPageMarket (backendOf accepted) 3 = some st ∧
      st.pageOffsets = [0, 50, 100] ∧ st.offset = 100 ∧
      getRequests st.trace = [assetsRequest 0, assetsRequest 50, assetsRequest 100] := by
  obtain ⟨st, h1, h2, h3, h4⟩ :=
    (main_terminates_at_first_empty_page twoPageMarket (backendOf accepted)).1 2
      (by
        intro i hi
        rw [twoPageMarket, pageAt_marketOfPages]
        interval_cases i <;> decide)
      (by rw [twoPageMarket, pageAt_marketOfPages]; decide) 3 (by decide)
  refine ⟨st, h1, h2, h3, ?_⟩
  rw [h4, twoPageMarket, readsOf_marketOfPages]
  rfl

theorem mem_take_iff_lt (occ : List (Asset × Order)) (i : Nat) (q : Asset × Order) :
    q ∈ occ.take i ↔ ∃ j, j < i ∧ occ[j]? = some q := by
  rw [List.mem_iff_getElem?]
  constructor
  · rintro ⟨j, hj⟩
    rw [List.getElem?_take] at hj
    by_cases hji : j < i
    · rw [if_pos hji] at hj
      exact ⟨j, hji, hj⟩
    · rw [if_neg hji] at hj
      cases hj
  · rintro ⟨j, hji, hj⟩
    exact ⟨j, by rw [List.getElem?_take, if_pos hji]; exact hj⟩

theorem mem_seenKeys_take (occ : List (Asset × Order)) (i : Nat) (k : JsVal) :
    k ∈ seenKeys (occ.take i) ↔
      ∃ j q, j < i ∧ occ[j]? = some q ∧ eligible q.2 = true ∧ keyOf q = k := by
  rw [seenKeys, List.mem_map]
  constructor
  · rintro ⟨q, hq, hk⟩
    rw [List.mem_filter] at hq
    obtain ⟨j, hji, hj⟩ := (mem_take_iff_lt occ i q).1 hq.1
    exact ⟨j, q, hji, hj, hq.2, hk⟩
  · rintro ⟨j, q, hji, hj, hel, hk⟩
    exact ⟨q, List.mem_filter.2 ⟨(mem_take_iff_lt occ i q).2 ⟨j, hji, hj⟩, hel⟩, hk⟩

theorem verdicts_eq_expected (pre : List (Asset × Order)) (st : SyncState)
    (inv : OrdersInv pre st) : st.verdicts = expectedVerdicts pre := by
  apply List.ext_getElem?
  intro n
  by_cases hn : n < pre.length
  · rw [inv.verdicts n pre[n] (List.getElem?_eq_getElem hn), expectedVerdicts,
      List.getElem?_map, List.getElem?_range hn]
    simp [List.getElem?_eq_getElem hn]
  · rw [List.getElem?_eq_none (by rw [inv.length]; omega),
      List.getElem?_eq_none (by simp [expectedVerdicts]; omega)]

theorem mem_forwardedPayloads (p : Payload) :
    ∀ vs : List Verdict, Verdict.forwarded p ∈ vs → p ∈ forwardedPayloads vs := by
  intro vs
  induction vs with
  | nil =>
    intro h
    cases h
  | cons v vs ih =>
    intro h
    rcases List.mem_cons.1 h with h2 | h2
    · subst h2
      exact List.mem_cons_self _ _
    · cases v with
      | ineligible => exact ih h2
      | duplicate k => exact ih h2
      | forwarded q => exact List.mem_cons_of_mem _ (ih h2)

theorem postsOf_backendOf (res : Response) (hok : res.ok = true) :
    ∀ (ps : List Payload) (k : Nat), postsOf (backendOf res) k ps = ps := by
  intro ps
  induction ps with
  | nil =>
    intro k
    rfl
  | cons p ps ih =>
    intro k
    have h1 : requestCount (postOrderToBackend (backendOf res k) p).trace = 1 := by
      rw [postOrderToBackend_trace,
        safeFetch_success (backendOf res k) (orderRequest p) 1 res rfl hok]
      rfl
    simp only [postsOf, h1, ih (k + 1)]
    rfl

/-- C1, as stated, fails: the asset `shadowedAsset` has two sell orders with
the Dedup Key "0xd"; the first lacks protocol parameters and is not forwarded,
the second is forwarded: the one POST request of the run carries the payload
of the second. -/
theorem main_first_occurrence_not_forwarded :
    ∃ st, main shadowedMarket (backendOf accepted) 2 = some st ∧
      visitedOrders (pagesRead shadowedMarket st) =
        [(shadowedAsset, bareOrder "0xd"), (shadowedAsset, listedOrder "0xd")] ∧
      dedupKey shadowedAsset (bareOrder "0xd") = dedupKey shadowedAsset (listedOrder "0xd") ∧
      st.verdicts =
        [.ineligible,
         .forwarded (buildPayload shadowedAsset (listedOrder "0xd") sampleProtocol
            sampleParameters (.str "0xd"))] ∧
      postBodies st.trace =
        [buildPayload shadowedAsset (listedOrder "0xd") sampleProtocol sampleParameters
          (.str "0xd")] := by
  have h := visitedOrders_pagesRead_finished shadowedMarket (backendOf accepted) 1 2
    (by
      intro i hi
      rw [shadowedMarket, pageAt_marketOfPages]
      interval_cases i
      decide)
    (by rw [shadowedMarket, pageAt_marketOfPages]; decide) (by decide)
  have hocc : visitedOrders (pagesRead shadowedMarket (stateAfter shadowedMarket (backendOf accepted) 2)) =
      [(shadowedAsset, bareOrder "0xd"), (shadowedAsset, listedOrder "0xd")] := by
    rw [h.2.2.2, pagesBefore]
    simp only [shadowedMarket, pageAt_marketOfPages]
    decide
  have inv := (stateAfter_inv shadowedMarket (backendOf accepted) 2).orders
  rw [hocc] at inv
  have hv : (stateAfter shadowedMarket (backendOf accepted) 2).verdicts =
      [.ineligible,
       .forwarded (buildPayload shadowedAsset (listedOrder "0xd") sampleProtocol
          sampleParameters (.str "0xd"))] := by
    rw [verdicts_eq_expected _ _ inv]
    decide
  refine ⟨_, h.1, hocc, by decide, hv, ?_⟩
  rw [(stateAfter_posts shadowedMarket (backendOf accepted) 2).posts, hv,
    postsOf_backendOf accepted (by decide)]
  rfl

/-- C1, amended: in a run of `main` from the empty set, whatever the pages and
the answers of the backend, take the sell orders visited, in order.  The Dedup
Key of an order is its `order_hash` when that is truthy, and otherwise the
string made of the token id, "-" and the maker address.  An order without
protocol parameters is not forwarded.  An order with protocol parameters is
forwarded, with the payload built from it, when no earlier visited order with
protocol parameters has its Dedup Key: its payload is then posted to the
backend; and it is skipped as a duplicate when one has.  The POST requests of
the run are exactly those of the forwards, in order: for each forward the 1 to
4 requests of its one call of `postOrderToBackend`.  The Dedup Keys of the
forwards are pairwise distinct, so the POST requests that carry a Dedup Key
are the requests of one call, and no other key is posted. -/
theorem main_forwards_first_eligible_occurrence (market backend : Nat → Net) (fuel i : Nat)
    (nft : Asset) (order : Order)
    (hi : (ordersVisited market backend fuel)[i]? = some (nft, order)) :
    (protocolParameters order = none →
      (stateAfter market backend fuel).verdicts[i]? = some .ineligible) ∧
    (∀ pd params, protocolParameters order = some (pd, params) →
      ((∀ j q, j < i → (ordersVisited market backend fuel)[j]? = some q →
          eligible q.2 = true → keyOf q ≠ dedupKey nft order) →
        (stateAfter market backend fuel).verdicts[i]? =
          some (.forwarded (buildPayload nft order pd params (dedupKey nft order))) ∧
        buildPayload nft order pd params (dedupKey nft order) ∈
          postBodies (stateAfter market backend fuel).trace) ∧
      ((∃ j q, j < i ∧ (ordersVisited market backend fuel)[j]? = some q ∧
          eligible q.2 = true ∧ keyOf q = dedupKey nft order) →
        (stateAfter market backend fuel).verdicts[i]? =
          some (.duplicate (dedupKey nft order)))) ∧
    ((forwardedPayloads (stateAfter market backend fuel).verdicts).map
      (fun payload => payload.orderHash)).Nodup ∧
    (stateAfter market backend fuel).verdicts.length =
      (ordersVisited market backend fuel).length ∧
    (order.order_hash.truthy = true → dedupKey nft order = order.order_hash) ∧
    (order.order_hash.truthy = false →
      dedupKey nft order =
        .str (nft.token_id.toStr ++ "-" ++ (makerAddress order).toStr)) ∧
    postBodies (stateAfter market backend fuel).trace =
      postsOf backend 0 (forwardedPayloads (stateAfter market backend fuel).verdicts) ∧
    (∀ k p, (forwardedPayloads (stateAfter market backend fuel).verdicts)[k]? = some p →
      (postBodies (stateAfter market backend fuel).trace).filter
          (fun q => decide (q.orderHash = p.orderHash)) =
        List.replicate (requestCount (postOrderToBackend (backend k) p).trace) p ∧
      1 ≤ requestCount (postOrderToBackend (backend k) p).trace ∧
      requestCount (postOrderToBackend (backend k) p).trace ≤ RETRY_LIMIT + 1) ∧
    (∀ h, h ∉ (forwardedPayloads (stateAfter market backend fuel).verdicts).map
          (fun payload => payload.orderHash) →
      (postBodies (stateAfter market backend fuel).trace).filter
          (fun q => decide (q.orderHash = h)) = []) := by
  have inv := (stateAfter_inv market backend fuel).orders
  have pinv := stateAfter_posts market backend fuel
  have hnd : ((forwardedPayloads (stateAfter market backend fuel).verdicts).map
      (fun payload => payload.orderHash)).Nodup := by
    rw [inv.forwarded]
    exact inv.nodup
  have hposts : ∀ k p,
      (forwardedPayloads (stateAfter market backend fuel).verdicts)[k]? = some p →
      (postBodies (stateAfter market backend fuel).trace).filter
          (fun q => decide (q.orderHash = p.orderHash)) =
        List.replicate (requestCount (postOrderToBackend (backend k) p).trace) p := by
    intro k p hp
    have h := postsOf_filter_mem backend _ 0 hnd k p hp
    rw [Nat.zero_add] at h
    rw [pinv.posts]
    exact h
  have hv := inv.verdicts i (nft, order) hi
  have hmem := mem_seenKeys_take (ordersVisited market backend fuel) i (dedupKey nft order)
  refine ⟨?_, ?_, hnd, inv.length, ?_, ?_, pinv.posts, ?_, ?_⟩
  · intro hpp
    rw [hv]
    simp [verdictOf, hpp]
  · intro pd params hpp
    constructor
    · intro hfirst
      have hnot : ¬ keyOf (nft, order) ∈
          seenKeys ((visitedOrders (pagesRead market (stateAfter market backend fuel))).take i) := by
        intro hin
        obtain ⟨j, q, hji, hj, hel, hk⟩ := hmem.1 hin
        exact hfirst j q hji hj hel hk
      have hfw : (stateAfter market backend fuel).verdicts[i]? =
          some (.forwarded (buildPayload nft order pd params (dedupKey nft order))) := by
        rw [hv]
        simp only [verdictOf, hpp, hnot, if_false]
        rfl
      refine ⟨hfw, ?_⟩
      have hin := mem_forwardedPayloads _ _ (List.getElem?_mem hfw)
      obtain ⟨k, hk⟩ := List.mem_iff_getElem?.1 hin
      have hrep := hposts k _ hk
      have hone := (requestCount_postOrderToBackend (backend k)
        (buildPayload nft order pd params (dedupKey nft order))).1
      have hin2 : buildPayload nft order pd params (dedupKey nft order) ∈
          List.replicate (requestCount (postOrderToBackend (backend k)
            (buildPayload nft order pd params (dedupKey nft order))).trace)
            (buildPayload nft order pd params (dedupKey nft order)) := by
        rw [List.mem_replicate]
        exact ⟨by omega, rfl⟩
      rw [← hrep] at hin2
      exact (List.mem_filter.1 hin2).1
    · intro hlater
      have hin : keyOf (nft, order) ∈
          seenKeys ((visitedOrders (pagesRead market (stateAfter market backend fuel))).take i) :=
        hmem.2 hlater
      rw [hv]
      simp only [verdictOf, hpp, hin, if_true]
      rfl
  · intro ht
    simp [dedupKey, JsVal.or, ht]
  · intro ht
    simp [dedupKey, JsVal.or, ht]
  · intro k p hp
    exact ⟨hposts k p hp, requestCount_postOrderToBackend (backend k) p⟩
  · intro h hnot
    rw [pinv.posts]
    exact postsOf_filter_not_mem backend h _ 0 hnot

/-- Two orders of one asset and one maker, without `order_hash`: both have the
Dedup Key "5-0xm"; the second is skipped as a duplicate, and the one POST
request of the run carries the payload of the first. -/
theorem main_forwards_first_eligible_occurrence_witness :
    (ordersVisited unhashedMarket (backendOf accepted) 2)[1]? =
      some (unhashedAsset, unhashedOrder "0xm" "2000000000000000000") ∧
    dedupKey unhashedAsset (unhashedOrder "0xm" "2000000000000000000") = .str "5-0xm" ∧
    (stateAfter unhashedMarket (backendOf accepted) 2).verdicts[1]? =
      some (.duplicate (.str "5-0xm")) ∧
    postBodies (stateAfter unhashedMarket (backendOf accepted) 2).trace =
      [buildPayload unhashedAsset (unhashedOrder "0xm" "1000000000000000000") sampleProtocol
        sampleParameters (.str "5-0xm")] := by
  have h := visitedOrders_pagesRead_finished unhashedMarket (backendOf accepted) 1 2
    (by
      intro i hi
      rw [unhashedMarket, pageAt_marketOfPages]
      interval_cases i
      decide)
    (by rw [unhashedMarket, pageAt_marketOfPages]; decide) (by decide)
  have hocc : ordersVisited unhashedMarket (backendOf accepted) 2 =
      [(unhashedAsset, unhashedOrder "0xm" "1000000000000000000"),
       (unhashedAsset, unhashedOrder "0xm" "2000000000000000000")] := by
    rw [ordersVisited, h.2.2.2, pagesBefore]
    simp only [unhashedMarket, pageAt_marketOfPages]
    decide
  have h1 : (ordersVisited unhashedMarket (backendOf accepted) 2)[1]? =
      some (unhashedAsset, unhashedOrder "0xm" "2000000000000000000") := by
    rw [hocc]
    rfl
  have hthm := main_forwards_first_eligible_occurrence unhashedMarket (backendOf accepted) 2 1
    unhashedAsset (unhashedOrder "0xm" "2000000000000000000") h1
  have hkey : dedupKey unhashedAsset (unhashedOrder "0xm" "2000000000000000000") =
      .str "5-0xm" := by
    rw [hthm.2.2.2.2.2.1 (by decide)]
    decide
  have hdup := (hthm.2.1 sampleProtocol sampleParameters rfl).2
    ⟨0, (unhashedAsset, unhashedOrder "0xm" "1000000000000000000"), by decide,
      by rw [hocc]; rfl, by decide, by decide⟩
  rw [hkey] at hdup
  refine ⟨h1, hkey, hdup, ?_⟩
  have inv := (stateAfter_inv unhashedMarket (backendOf accepted) 2).orders
  rw [← ordersVisited, hocc] at inv
  rw [hthm.2.2.2.2.2.2.1, verdicts_eq_expected _ _ inv, postsOf_backendOf accepted (by decide)]
  decide

/-- C9: when the pages number 0 to `k - 1` are non-empty and the page number
`k` is empty, `main` returns, whatever the backend answers to each forward,
with `totalNFT` the number of assets of the pages 0 to `k - 1`, and with
`totalOrders` the number of their sell orders that have protocol parameters
and whose Dedup Key no earlier sell order with protocol parameters has. -/
theorem main_counters (market backend : Nat → Net) (k fuel : Nat)
    (hk : ∀ i, i < k → pageAt market (i * PAGE_SIZE) ≠ [])
    (hempty : pageAt market (k * PAGE_SIZE) = []) (hfuel : k < fuel) :
    ∃ st, main market backend fuel = some st ∧
      st.totalNFT = ((pagesBefore market k).map List.length).sum ∧
      st.totalOrders = freshCount (visitedOrders (pagesBefore market k)) := by
  have h := visitedOrders_pagesRead_finished market backend k fuel hk hempty hfuel
  have inv := stateAfter_inv market backend fuel
  refine ⟨_, h.1, ?_, ?_⟩
  · rw [inv.nft, h.2.2.2]
    simp
  · rw [inv.orders.fresh, h.2.2.2, visitedOrders_snoc]
    simp

/-- The scenario: one page with asset A (one valid order), asset B (no sell
orders) and asset C (two orders, one without protocol parameters), and a
backend that rejects every order: `totalNFT` is 3 and `totalOrders` is 2. -/
theorem main_counters_witness :
    ∃ st, main scenarioMarket (backendOf rejected) 2 = some st ∧
      st.totalNFT = 3 ∧ st.totalOrders = 2 := by
  obtain ⟨st, h1, h2, h3⟩ := main_counters scenarioMarket (backendOf rejected) 1 2
    (by
      intro i hi
      rw [scenarioMarket, pageAt_marketOfPages]
      interval_cases i
      decide)
    (by rw [scenarioMarket, pageAt_marketOfPages]; decide) (by decide)
  refine ⟨st, h1, ?_, ?_⟩
  · rw [h2, pagesBefore]
    simp only [scenarioMarket, pageAt_marketOfPages]
    decide
  · rw [h3, pagesBefore]
    simp only [scenarioMarket, pageAt_marketOfPages]
    decide

end SyncOpenseaOrders
